import Mathlib

/-!
Verification of the loan-agent debt payoff engine.

This file is a shallow embedding, in Lean 4, of the numeric core of the
loan-agent repository: the single-loan amortization calculator
(service.CalculateLoan), the debt payoff simulation engine
(service.calculateStrategy and service.CalculateDebtExitPlan), and the
term recommendation scorer (service.RecommendTerm, service.calculateScore).

Modelling conventions:

* Go float64 monetary arithmetic is embedded as exact rational arithmetic
  (ℚ).  `math.Round(x*100)/100` is embedded as `roundTo2Decimals`, using
  round-half-away-from-zero, exactly as Go's math.Round.
* Go maps keyed by debt name are embedded as functions `String → ℚ`; the
  engines only ever read keys that are names of debts in the request, and
  the validation layer guarantees those names are unique.
* Go slices sorted with sort.Slice are embedded with Mathlib's
  List.insertionSort by the same comparison key.  sort.Slice is an
  unstable comparison sort; every property proved below about the sorted
  order uses only that the result is a permutation of the input that is
  sorted for the key, which holds for any implementation of sort.Slice.
* The presentation-only fields (Explanation / Reason strings produced by
  generateDebtExplanation, generateTermExplanation and the AI service) are
  external collaborators per the specification and carry no numeric
  content; they are omitted from the embedded result records.  All numeric
  fields are embedded exactly.
* The unbounded `for {}` month loop of calculateStrategy is embedded with
  explicit fuel `MaxDebtPayoffMonths + 1`; the `fuelOut` marker records
  whether the fuel (an artifact of the embedding, not of the source) was
  ever exhausted, and it is proved below that it never is, because the
  source's own safety ceiling stops the loop first.
-/

namespace LoanAgent

/-! ## Constants (service/constants.go) -/

def MaxLoanAmount : ℚ := 1000000000
def MaxInterestRate : ℚ := 1000
def MaxTermMonths : ℤ := 600
def MaxDebtAmount : ℚ := 100000000
def MaxDebtsPerRequest : ℕ := 50
def MaxDebtPayoffMonths : ℕ := 600
def DebtBalanceTolerance : ℚ := 1/100
def MaxTermRangeMonths : ℤ := 120

/-! ## Rounding (service, roundTo2Decimals) -/

/-- Go's math.Round: nearest integer, half away from zero. -/
def goRound (x : ℚ) : ℤ :=
  if x < 0 then -(Int.floor (-x + 1/2)) else Int.floor (x + 1/2)

/-- `roundTo2Decimals` from the service package: `math.Round(value*100)/100`. -/
def roundTo2Decimals (value : ℚ) : ℚ :=
  (goRound (value * 100) : ℚ) / 100

/-! ## Data model (domain package) -/

structure Debt where
  Name : String
  Amount : ℚ
  InterestRate : ℚ
  MinimumPayment : ℚ
deriving DecidableEq, Repr

structure DebtExitInput where
  Debts : List Debt
  AvailableMonthlyPayment : ℚ
  Strategy : String
deriving DecidableEq, Repr

structure MonthlyPayment where
  DebtName : String
  Payment : ℚ
  RemainingBalance : ℚ
deriving DecidableEq, Repr

structure MonthlyPlan where
  Month : ℕ
  Payments : List MonthlyPayment
  TotalPaid : ℚ
deriving DecidableEq, Repr

structure StrategyResult where
  TotalInterestPaid : ℚ
  MonthsToPayoff : ℕ
deriving DecidableEq, Repr

/-- domain.Comparison; the anonymous Savings struct is flattened into the
two fields InterestSaved and MonthsSaved. -/
structure Comparison where
  Snowball : StrategyResult
  Avalanche : StrategyResult
  InterestSaved : ℚ
  MonthsSaved : ℤ
deriving DecidableEq, Repr

/-- domain.DebtExitResult, minus the presentation-only Explanation string. -/
structure DebtExitResult where
  Strategy : String
  TotalDebt : ℚ
  TotalInterestPaid : ℚ
  MonthsToPayoff : ℕ
  MonthlyPlan : List MonthlyPlan
  Comparison : Option Comparison
deriving DecidableEq, Repr

structure LoanInput where
  Amount : ℚ
  InterestRate : ℚ
  TermMonths : ℤ
deriving DecidableEq, Repr

structure LoanResult where
  MonthlyPayment : ℚ
  TotalPayment : ℚ
  TotalInterest : ℚ
deriving DecidableEq, Repr

structure TermRecommendationInput where
  Amount : ℚ
  InterestRate : ℚ
  MinTermMonths : ℤ
  MaxTermMonths : ℤ
  MaxMonthlyPayment : ℚ
  Preference : String
deriving DecidableEq, Repr

/-- domain.TermRecommendation, minus the presentation-only Reason string. -/
structure TermRecommendation where
  TermMonths : ℤ
  MonthlyPayment : ℚ
  TotalInterest : ℚ
  Score : ℚ
deriving DecidableEq, Repr

structure TermRecommendationResult where
  RecommendedTerm : ℤ
  Recommendations : List TermRecommendation
deriving DecidableEq, Repr

/-! ## Amortization calculator (service.CalculateLoan) -/

inductive LoanErr
  | invalidAmount
  | amountTooLarge
  | invalidRate
  | rateTooLarge
  | invalidTerm
  | termTooLarge
deriving DecidableEq, Repr

def CalculateLoan (input : LoanInput) : Except LoanErr LoanResult :=
  if input.Amount ≤ 0 then .error .invalidAmount
  else if MaxLoanAmount < input.Amount then .error .amountTooLarge
  else if input.InterestRate < 0 then .error .invalidRate
  else if MaxInterestRate < input.InterestRate then .error .rateTooLarge
  else if input.TermMonths ≤ 0 then .error .invalidTerm
  else if MaxTermMonths < input.TermMonths then .error .termTooLarge
  else
    let cuota : ℚ :=
      if input.InterestRate = 0 then input.Amount / (input.TermMonths : ℚ)
      else
        let tasaMensual := input.InterestRate / 100 / 12
        input.Amount * (tasaMensual / (1 - (1 + tasaMensual) ^ (-input.TermMonths)))
    let total := cuota * (input.TermMonths : ℚ)
    let intereses := total - input.Amount
    .ok ⟨roundTo2Decimals cuota, roundTo2Decimals total, roundTo2Decimals intereses⟩

/-! ## Debt exit plan: validation (service.CalculateDebtExitPlan, lines 29-88) -/

inductive DebtErr
  | noDebts
  | tooManyDebts
  | invalidBudget
  | emptyName
  | dupName (n : String)
  | invalidStrategy
  | invalidAmount
  | amountTooLarge
  | invalidRate
  | rateTooLarge
  | invalidMinimumPayment
  | minimumBelowInterest (n : String)
  | insufficientBudget
deriving DecidableEq, Repr

/-- The two error kinds the specification groups as `InfeasibleBudget`. -/
def DebtErr.isInfeasible : DebtErr → Bool
  | .minimumBelowInterest _ => true
  | .insufficientBudget => true
  | _ => false

/-- The unique-name loop: Go builds a set of seen names, rejecting empty and
duplicate names in request order. -/
def checkNames : List Debt → List String → Option DebtErr
  | [], _ => none
  | d :: ds, seen =>
    if d.Name = "" then some .emptyName
    else if d.Name ∈ seen then some (.dupName d.Name)
    else checkNames ds (d.Name :: seen)

/-- Per-debt validity loop, accumulating the sum of minimum payments exactly
as the Go loop does. -/
def checkDebtsLoop : List Debt → ℚ → Except DebtErr ℚ
  | [], acc => .ok acc
  | d :: ds, acc =>
    if d.Amount ≤ 0 then .error .invalidAmount
    else if MaxDebtAmount < d.Amount then .error .amountTooLarge
    else if d.InterestRate < 0 then .error .invalidRate
    else if MaxInterestRate < d.InterestRate then .error .rateTooLarge
    else if d.MinimumPayment ≤ 0 then .error .invalidMinimumPayment
    else if d.MinimumPayment < d.Amount * (d.InterestRate / 100) / 12 then
      .error (.minimumBelowInterest d.Name)
    else checkDebtsLoop ds (acc + d.MinimumPayment)

/-- All validation of CalculateDebtExitPlan, in source order. -/
def validateDebtExit (input : DebtExitInput) : Option DebtErr :=
  if input.Debts.length = 0 then some .noDebts
  else if MaxDebtsPerRequest < input.Debts.length then some .tooManyDebts
  else if input.AvailableMonthlyPayment ≤ 0 then some .invalidBudget
  else match checkNames input.Debts [] with
    | some e => some e
    | none =>
      if input.Strategy = "snowball" ∨ input.Strategy = "avalanche" ∨
          input.Strategy = "compare" then
        match checkDebtsLoop input.Debts 0 with
        | .error e => some e
        | .ok totalMin =>
          if input.AvailableMonthlyPayment < totalMin then some .insufficientBudget
          else none
      else some .invalidStrategy

/-! ## Debt exit plan: simulation (service.calculateStrategy) -/

/-- `(debt.InterestRate / 100) / 12` as in the simulation loop. -/
def monthlyRate (d : Debt) : ℚ := d.InterestRate / 100 / 12

/-- Pointwise update of a name-keyed balance map. -/
def updateFn (f : String → ℚ) (n : String) (v : ℚ) : String → ℚ :=
  fun m => if m = n then v else f m

/-- The fixed priority order, computed once per run: ascending Amount for
snowball, otherwise descending InterestRate (Go sort.Slice with the
corresponding less functions). -/
def sortDebts (debts : List Debt) (strategy : String) : List Debt :=
  if strategy = "snowball" then
    List.insertionSort (fun a b => a.Amount ≤ b.Amount) debts
  else
    List.insertionSort (fun a b => b.InterestRate ≤ a.InterestRate) debts

/-- The initial balance map: debt name ↦ debt amount. -/
def initBalances (debts : List Debt) : String → ℚ := fun n =>
  match debts.find? (fun d => d.Name == n) with
  | some d => d.Amount
  | none => 0

/-- The interest map built at the start of each month: for every debt with
positive balance, the month's interest on the start-of-month balance;
absent keys read as 0, as for a Go map. -/
def imapOf (debts : List Debt) (bal : String → ℚ) : String → ℚ := fun n =>
  match debts.find? (fun d => d.Name == n) with
  | some d => if 0 < bal n then bal n * monthlyRate d else 0
  | none => 0

/-- The month's total interest accrual (`totalInterestPaid += interest`
summed over the interest-accrual loop). -/
def monthInterest (debts : List Debt) (bal : String → ℚ) : ℚ :=
  (debts.map (fun d => if 0 < bal d.Name then bal d.Name * monthlyRate d else 0)).sum

/-- Working state of one simulated month. -/
structure MinState where
  bal : String → ℚ
  available : ℚ
  payments : List MonthlyPayment
  totalPaid : ℚ

/-- One iteration of the minimum-payment loop, translated clause by clause
from the Go body (debt_exit_service.go, lines 183-229). -/
def minPhaseStep (imap : String → ℚ) (st : MinState) (d : Debt) : MinState :=
  if st.bal d.Name ≤ 0 then st
  else
    let interest := imap d.Name
    let minRequiredPayment := if d.MinimumPayment < interest then interest else d.MinimumPayment
    let maxPossiblePayment := st.bal d.Name + interest
    let payment0 := if maxPossiblePayment < minRequiredPayment then maxPossiblePayment else minRequiredPayment
    let payment := if st.available < payment0 then st.available else payment0
    if 0 < payment then
      let principalPaid0 := payment - interest
      let principalPaid := if principalPaid0 < 0 then 0 else principalPaid0
      let newBalRaw := st.bal d.Name - principalPaid
      let newBal := if newBalRaw < 0 then 0 else newBalRaw
      { bal := updateFn st.bal d.Name newBal
        available := st.available - payment
        payments := st.payments ++ [⟨d.Name, roundTo2Decimals payment, roundTo2Decimals newBal⟩]
        totalPaid := st.totalPaid + payment }
    else st

/-- The minimum-payment loop over all debts in priority order. -/
def minPhaseGo (imap : String → ℚ) : List Debt → MinState → MinState
  | [], st => st
  | d :: ds, st => minPhaseGo imap ds (minPhaseStep imap st d)

/-- The inner loop of the surplus phase: replace the first payment entry
whose DebtName matches, in place; `none` when no entry matches (in which
case the Go loop mutates nothing). -/
def surplusUpdate (nm : String) (extra newBal : ℚ) : List MonthlyPayment → Option (List MonthlyPayment)
  | [] => none
  | p :: ps =>
    if p.DebtName = nm then
      some ({ p with Payment := roundTo2Decimals (p.Payment + extra)
                     RemainingBalance := roundTo2Decimals newBal } :: ps)
    else match surplusUpdate nm extra newBal ps with
      | some ps' => some (p :: ps')
      | none => none

/-- The surplus phase (debt_exit_service.go, lines 231-256): if budget
remains, find the first debt in priority order with positive balance, cap
the extra at its balance, and update its existing payment entry in place.
The balance, available and totalPaid mutations happen inside the matching
branch of the inner loop in the source, hence only when an entry exists. -/
def applySurplus (debts : List Debt) (st : MinState) : MinState :=
  if 0 < st.available then
    match debts.find? (fun d => decide (0 < st.bal d.Name)) with
    | none => st
    | some d =>
      let extraPayment := if st.bal d.Name < st.available then st.bal d.Name else st.available
      let newBalRaw := st.bal d.Name - extraPayment
      let newBal := if newBalRaw < 0 then 0 else newBalRaw
      match surplusUpdate d.Name extraPayment newBal st.payments with
      | none => st
      | some ps' =>
        { bal := updateFn st.bal d.Name newBal
          available := st.available - extraPayment
          totalPaid := st.totalPaid + extraPayment
          payments := ps' }
  else st

/-- Result of simulating one month. -/
structure MonthOut where
  payments : List MonthlyPayment
  bal : String → ℚ
  interest : ℚ
  totalPaid : ℚ

/-- The state after the minimum-payment phase of one month, starting from
the full monthly budget and an empty payment list. -/
def minPhaseResult (debts : List Debt) (budget : ℚ) (bal : String → ℚ) : MinState :=
  minPhaseGo (imapOf debts bal) debts ⟨bal, budget, [], 0⟩

/-- One month of the simulation: interest accrual on start-of-month
balances, then minimum payments in priority order, then the surplus phase. -/
def simMonth (debts : List Debt) (budget : ℚ) (bal : String → ℚ) : MonthOut :=
  let st2 := applySurplus debts (minPhaseResult debts budget bal)
  ⟨st2.payments, st2.bal, monthInterest debts bal, st2.totalPaid⟩

/-- The payoff test at the end of a month: every balance within tolerance. -/
def allPaid (debts : List Debt) (bal : String → ℚ) : Bool :=
  debts.all (fun d => decide (bal d.Name ≤ DebtBalanceTolerance))

/-- Final state of a simulation run. -/
structure SimOut where
  plan : List MonthlyPlan
  interest : ℚ
  month : ℕ
  bal : String → ℚ
  ceiling : Bool
  fuelOut : Bool

/-- The month loop.  `ceiling` records that the run exited through the
month-ceiling break (the branch whose only observable effect in the source
is a log line); `fuelOut` records exhaustion of the embedding fuel, proved
below never to occur. -/
def runMonths (debts : List Debt) (budget : ℚ) :
    ℕ → ℕ → (String → ℚ) → ℚ → SimOut
  | 0, month, bal, ti => ⟨[], ti, month, bal, false, true⟩
  | fuel + 1, month, bal, ti =>
    let m := month + 1
    let out := simMonth debts budget bal
    let entry : MonthlyPlan := ⟨m, out.payments, roundTo2Decimals out.totalPaid⟩
    let ti' := ti + out.interest
    if allPaid debts out.bal then ⟨[entry], ti', m, out.bal, false, false⟩
    else if MaxDebtPayoffMonths < m then ⟨[entry], ti', m, out.bal, true, false⟩
    else
      let rest := runMonths debts budget fuel m out.bal ti'
      ⟨entry :: rest.plan, rest.interest, rest.month, rest.bal, rest.ceiling, rest.fuelOut⟩

/-- A whole strategy run: sort once, then simulate. -/
def runFor (input : DebtExitInput) (strategy : String) : SimOut :=
  let debts := sortDebts input.Debts strategy
  runMonths debts input.AvailableMonthlyPayment (MaxDebtPayoffMonths + 1) 0
    (initBalances debts) 0

/-- service.calculateStrategy: assemble the result of one run. -/
def calculateStrategy (input : DebtExitInput) (strategy : String) : DebtExitResult :=
  let out := runFor input strategy
  { Strategy := strategy
    TotalDebt := roundTo2Decimals ((input.Debts.map (·.Amount)).sum)
    TotalInterestPaid := roundTo2Decimals out.interest
    MonthsToPayoff := out.month
    MonthlyPlan := out.plan
    Comparison := none }

/-- Whether a run exits through the month-ceiling break. -/
def hitCeiling (input : DebtExitInput) (strategy : String) : Bool :=
  (runFor input strategy).ceiling

/-- service.CalculateDebtExitPlan: validation, then one run or the compare
meta-mode. -/
def CalculateDebtExitPlan (input : DebtExitInput) : Except DebtErr DebtExitResult :=
  match validateDebtExit input with
  | some e => .error e
  | none =>
    if input.Strategy = "compare" then
      let snowballResult := calculateStrategy input "snowball"
      let avalancheResult := calculateStrategy input "avalanche"
      let primary :=
        if avalancheResult.TotalInterestPaid < snowballResult.TotalInterestPaid then
          avalancheResult
        else snowballResult
      .ok { primary with Comparison := some (
        { Snowball := ⟨snowballResult.TotalInterestPaid, snowballResult.MonthsToPayoff⟩
          Avalanche := ⟨avalancheResult.TotalInterestPaid, avalancheResult.MonthsToPayoff⟩
          InterestSaved := roundTo2Decimals
            (max 0 (snowballResult.TotalInterestPaid - avalancheResult.TotalInterestPaid))
          MonthsSaved := (snowballResult.MonthsToPayoff : ℤ) - (avalancheResult.MonthsToPayoff : ℤ) } : Comparison) }
    else .ok (calculateStrategy input input.Strategy)

/-! ## Term recommendation (service.RecommendTerm, service.calculateScore) -/

inductive RecErr
  | invalidAmount
  | invalidRate
  | invalidTerms
  | minGreaterMax
  | maxTermExceeded
  | rangeTooWide
  | invalidMaxPayment
  | invalidPreference
  | noViableTerm
deriving DecidableEq, Repr

/-- RecommendTerm's validation chain, in source order. -/
def recommendTermValidate (input : TermRecommendationInput) : Option RecErr :=
  if input.Amount ≤ 0 then some .invalidAmount
  else if input.InterestRate < 0 then some .invalidRate
  else if input.MinTermMonths ≤ 0 ∨ input.MaxTermMonths ≤ 0 then some .invalidTerms
  else if input.MaxTermMonths < input.MinTermMonths then some .minGreaterMax
  else if MaxTermMonths < input.MaxTermMonths then some .maxTermExceeded
  else if MaxTermRangeMonths < input.MaxTermMonths - input.MinTermMonths then some .rangeTooWide
  else if input.MaxMonthlyPayment ≤ 0 then some .invalidMaxPayment
  else if input.Preference = "minimize_interest" ∨ input.Preference = "minimize_payment" ∨
      input.Preference = "balanced" then none
  else some .invalidPreference

/-- The divisor of the term-length sub-score in calculateScore:
`float64(input.MaxTermMonths - input.MinTermMonths)`. -/
def termScoreDenominator (input : TermRecommendationInput) : ℚ :=
  ((input.MaxTermMonths - input.MinTermMonths : ℤ) : ℚ)

/-- service.calculateScore.  Note: when `termScoreDenominator input = 0`
(accepted by validation when MinTermMonths = MaxTermMonths), the source
divides 0.0 by 0.0, producing a float NaN; this total ℚ embedding is forced
to adopt Lean's q / 0 = 0 convention at that point. -/
def calculateScore (result : LoanResult) (input : TermRecommendationInput)
    (term : ℤ) : ℚ :=
  let maxPossibleInterest := input.Amount * (input.InterestRate / 100) * (input.MaxTermMonths : ℚ) / 12
  let minPossibleInterest := input.Amount * (input.InterestRate / 100) * (input.MinTermMonths : ℚ) / 12
  let interestRange := maxPossibleInterest - minPossibleInterest
  let paymentRange := input.MaxMonthlyPayment - input.Amount / (input.MaxTermMonths : ℚ)
  let interestScore :=
    if 0 < interestRange then 10 * (1 - (result.TotalInterest - minPossibleInterest) / interestRange)
    else 0
  let paymentScore :=
    if 0 < paymentRange then
      10 * (1 - (result.MonthlyPayment - input.Amount / (input.MaxTermMonths : ℚ)) / paymentRange)
    else 0
  let termScore := 10 * (1 - ((term - input.MinTermMonths : ℤ) : ℚ) / termScoreDenominator input)
  let score :=
    if input.Preference = "minimize_interest" then
      6/10 * interestScore + 2/10 * paymentScore + 2/10 * termScore
    else if input.Preference = "minimize_payment" then
      2/10 * interestScore + 6/10 * paymentScore + 2/10 * termScore
    else if input.Preference = "balanced" then
      4/10 * interestScore + 4/10 * paymentScore + 2/10 * termScore
    else 0
  roundTo2Decimals score

/-- The integer terms `minTerm, minTerm+1, ..., maxTerm`. -/
def termRange (lo hi : ℤ) : List ℤ :=
  (List.range (hi + 1 - lo).toNat).map (fun k => lo + (k : ℤ))

/-- The scenario loop of RecommendTerm: per term, amortize, skip errors,
filter by the monthly payment cap, and score. -/
def buildRecommendations (input : TermRecommendationInput) : List TermRecommendation :=
  (termRange input.MinTermMonths input.MaxTermMonths).filterMap (fun term =>
    match CalculateLoan ⟨input.Amount, input.InterestRate, term⟩ with
    | .error _ => none
    | .ok result =>
      if input.MaxMonthlyPayment < result.MonthlyPayment then none
      else some ⟨term, result.MonthlyPayment, result.TotalInterest,
                 calculateScore result input term⟩)

/-- service.RecommendTerm.  The source sorts with Go sort.Slice and the
less function `Score i > Score j`, an unstable comparison sort; the
embedding uses an insertion sort for the corresponding total relation.
Properties proved about the output order therefore hold up to the
implementation-defined order of equal scores. -/
def RecommendTerm (input : TermRecommendationInput) : Except RecErr TermRecommendationResult :=
  match recommendTermValidate input with
  | some e => .error e
  | none =>
    let recommendations :=
      List.insertionSort (fun a b => b.Score ≤ a.Score) (buildRecommendations input)
    match recommendations with
    | [] => .error .noViableTerm
    | top :: rest => .ok ⟨top.TermMonths, top :: rest⟩

/-! ## Derived forms and measures used by the verification layer

`mpPay` and `mpBal` are the closed forms that the minimum-payment loop body
provably computes for an active debt once the validation invariants are in
force (minimum payment covers the month's interest, and the remaining
budget always suffices for the remaining minimum payments); the
characterization lemmas below establish the correspondence. -/

/-- The payment the minimum-payment phase makes to an active debt with
start-of-month balance `b`: its minimum payment, capped by balance plus
interest. -/
def mpPay (d : Debt) (b : ℚ) : ℚ := min d.MinimumPayment (b + b * monthlyRate d)

/-- The balance after the minimum-payment phase for an active debt. -/
def mpBal (d : Debt) (b : ℚ) : ℚ := b - (mpPay d b - b * monthlyRate d)

/-- `mpPay` extended by zero to inactive debts. -/
def mpPayIf (d : Debt) (b : ℚ) : ℚ := if 0 < b then mpPay d b else 0

/-- `mpBal` extended to inactive debts (whose balance is untouched). -/
def mpBalIf (d : Debt) (b : ℚ) : ℚ := if 0 < b then mpBal d b else b

/-- The payment entry recorded for a debt in the minimum-payment phase,
`none` for an inactive debt. -/
def mpEntry (d : Debt) (b : ℚ) : Option MonthlyPayment :=
  if 0 < b then
    some ⟨d.Name, roundTo2Decimals (mpPay d b), roundTo2Decimals (mpBal d b)⟩
  else none

/-- The facts validation establishes about the debt list fed to a run. -/
structure ValidDebts (debts : List Debt) (budget : ℚ) : Prop where
  amountPos : ∀ d ∈ debts, 0 < d.Amount
  ratePos : ∀ d ∈ debts, 0 ≤ d.InterestRate
  minPos : ∀ d ∈ debts, 0 < d.MinimumPayment
  minCover : ∀ d ∈ debts, d.Amount * monthlyRate d ≤ d.MinimumPayment
  budgetCover : (debts.map (·.MinimumPayment)).sum ≤ budget
  namesNodup : (debts.map (·.Name)).Nodup

/-- Run invariant: every balance stays between 0 and the original amount. -/
def BalInv (debts : List Debt) (bal : String → ℚ) : Prop :=
  ∀ d ∈ debts, 0 ≤ bal d.Name ∧ bal d.Name ≤ d.Amount

/-- Sum of the balances of the listed debts. -/
def balSum (debts : List Debt) (bal : String → ℚ) : ℚ :=
  (debts.map (fun d => bal d.Name)).sum

/-- Sum of the recorded Payment fields of a month's payment list. -/
def paySum (ps : List MonthlyPayment) : ℚ := (ps.map (·.Payment)).sum

/-- Sum of all recorded Payment fields across a monthly plan. -/
def planPaySum (plan : List MonthlyPlan) : ℚ :=
  (plan.map (fun e => paySum e.Payments)).sum

/-- Number of recorded payment entries across a monthly plan. -/
def planPayCount (plan : List MonthlyPlan) : ℕ :=
  (plan.map (fun e => e.Payments.length)).sum

/-- Sum of all recorded Payment amounts of a strategy result. -/
def recPaymentsSum (r : DebtExitResult) : ℚ := planPaySum r.MonthlyPlan

/-- Number of recorded payment entries of a strategy result. -/
def numPayments (r : DebtExitResult) : ℕ := planPayCount r.MonthlyPlan

/-- The structural part of CalculateDebtExitPlan's validation: everything
except the two infeasible-budget conditions. -/
def structuralOK (input : DebtExitInput) : Prop :=
  input.Debts ≠ [] ∧
  input.Debts.length ≤ MaxDebtsPerRequest ∧
  0 < input.AvailableMonthlyPayment ∧
  (∀ d ∈ input.Debts, d.Name ≠ "") ∧
  (input.Debts.map (·.Name)).Nodup ∧
  (input.Strategy = "snowball" ∨ input.Strategy = "avalanche" ∨ input.Strategy = "compare") ∧
  ∀ d ∈ input.Debts, 0 < d.Amount ∧ d.Amount ≤ MaxDebtAmount ∧
    0 ≤ d.InterestRate ∧ d.InterestRate ≤ MaxInterestRate ∧ 0 < d.MinimumPayment

/-! ## Concrete inputs used in counterexamples and witnesses -/

/-- Rate-zero debt of 601.012: paid 1 per month, after 601 months the
residue 0.012 still exceeds the 0.01 tolerance, so the ceiling break
fires. -/
def residueDebt : Debt := ⟨"d", 601012/1000, 0, 1⟩

/-- Rate-zero debt of 601.01: paid 1 per month, after 601 months the
residue 0.01 is within tolerance, a normal payoff in exactly 601 months. -/
def payoffDebt : Debt := ⟨"d", 60101/100, 0, 1⟩

/-- Request around `residueDebt`; hits the month ceiling, and every
recorded (2-decimal) figure coincides with those of `payoffInput`. -/
def residueInput : DebtExitInput := ⟨[residueDebt], 1, "snowball"⟩

/-- Request around `payoffDebt`; a normal payoff in exactly 601 months. -/
def payoffInput : DebtExitInput := ⟨[payoffDebt], 1, "snowball"⟩

/-- A single rate-zero debt under compare: both runs pay the same zero
interest, an exact tie. -/
def tieInput : DebtExitInput := ⟨[⟨"t", 100, 0, 100⟩], 100, "compare"⟩

/-- A single rate-zero debt paid off in one month; used to instantiate
hypotheses of the general theorems. -/
def oneMonthInput : DebtExitInput := ⟨[⟨"w", 100, 0, 100⟩], 100, "snowball"⟩

/-- A debt whose minimum payment is half the budget, so every month has a
surplus and an active debt to receive it. -/
def surplusInput : DebtExitInput := ⟨[⟨"s", 1000, 0, 50⟩], 100, "snowball"⟩

/-! ## Rounding lemmas -/

theorem abs_floor_half_sub (y : ℚ) : |((⌊y + 1/2⌋ : ℤ) : ℚ) - y| ≤ 1/2 := by
  have h1 := Int.floor_le (y + 1/2)
  have h2 := Int.lt_floor_add_one (y + 1/2)
  rw [abs_le]
  constructor <;> [linarith [h2]; linarith [h1]]

theorem abs_goRound_sub (x : ℚ) : |((goRound x : ℤ) : ℚ) - x| ≤ 1/2 := by
  unfold goRound
  split
  · have h := abs_floor_half_sub (-x)
    rw [show ((-⌊-x + 1/2⌋ : ℤ) : ℚ) - x = -(((⌊-x + 1/2⌋ : ℤ) : ℚ) - -x) by push_cast; ring,
      abs_neg]
    exact h
  · exact abs_floor_half_sub x

theorem goRound_mono {x y : ℚ} (h : x ≤ y) : goRound x ≤ goRound y := by
  unfold goRound
  split <;> split
  · exact neg_le_neg (Int.floor_le_floor (by linarith))
  · have hx : (0 : ℤ) ≤ ⌊-x + 1/2⌋ := Int.floor_nonneg.mpr (by linarith)
    have hy : (0 : ℤ) ≤ ⌊y + 1/2⌋ := Int.floor_nonneg.mpr (by linarith)
    omega
  · rename_i hx hy
    exact absurd (lt_of_le_of_lt h hy) (by simpa using hx)
  · exact Int.floor_le_floor (by linarith)

theorem abs_roundTo2Decimals_sub (x : ℚ) : |roundTo2Decimals x - x| ≤ 1/200 := by
  have h := abs_goRound_sub (x * 100)
  unfold roundTo2Decimals
  rw [show ((goRound (x * 100) : ℤ) : ℚ) / 100 - x = (((goRound (x * 100) : ℤ) : ℚ) - x * 100) / 100
      by ring]
  rw [abs_div]
  rw [show |(100 : ℚ)| = 100 by norm_num]
  linarith

theorem roundTo2Decimals_mono {x y : ℚ} (h : x ≤ y) :
    roundTo2Decimals x ≤ roundTo2Decimals y := by
  unfold roundTo2Decimals
  have : goRound (x * 100) ≤ goRound (y * 100) :=
    goRound_mono (by linarith)
  have h2 : ((goRound (x * 100) : ℤ) : ℚ) ≤ ((goRound (y * 100) : ℤ) : ℚ) := by
    exact_mod_cast this
  linarith

/-! ## Lemmas about the minimum-payment closed forms -/

theorem monthlyRate_nonneg {d : Debt} (hr : 0 ≤ d.InterestRate) : 0 ≤ monthlyRate d := by
  unfold monthlyRate; positivity

theorem mpPay_le_minimum (d : Debt) (b : ℚ) : mpPay d b ≤ d.MinimumPayment :=
  min_le_left _ _

theorem mpPay_le_maxPossible (d : Debt) (b : ℚ) : mpPay d b ≤ b + b * monthlyRate d :=
  min_le_right _ _

theorem mpPay_pos {d : Debt} {b : ℚ} (hb : 0 < b) (hr : 0 ≤ d.InterestRate)
    (hmp : 0 < d.MinimumPayment) : 0 < mpPay d b := by
  have : 0 ≤ b * monthlyRate d := mul_nonneg hb.le (monthlyRate_nonneg hr)
  exact lt_min hmp (by linarith)

theorem interest_le_mpPay {d : Debt} {b : ℚ} (hb : 0 ≤ b)
    (hcov : b * monthlyRate d ≤ d.MinimumPayment) :
    b * monthlyRate d ≤ mpPay d b :=
  le_min hcov (by linarith)

theorem mpBal_nonneg (d : Debt) (b : ℚ) : 0 ≤ mpBal d b := by
  have := mpPay_le_maxPossible d b
  unfold mpBal; linarith

theorem mpBal_le_self {d : Debt} {b : ℚ} (hb : 0 ≤ b)
    (hcov : b * monthlyRate d ≤ d.MinimumPayment) : mpBal d b ≤ b := by
  have := interest_le_mpPay hb hcov
  unfold mpBal; linarith

theorem mpBal_eq_max (d : Debt) (b : ℚ) :
    mpBal d b = max (b + b * monthlyRate d - d.MinimumPayment) 0 := by
  unfold mpBal mpPay
  rcases le_total d.MinimumPayment (b + b * monthlyRate d) with h | h
  · rw [min_eq_left h, max_eq_left (by linarith)]; ring
  · rw [min_eq_right h, max_eq_right (by linarith)]; ring

theorem mpPay_mono {d : Debt} {b b' : ℚ} (hr : 0 ≤ d.InterestRate) (h : b ≤ b') :
    mpPay d b ≤ mpPay d b' := by
  have hrm := monthlyRate_nonneg hr
  exact min_le_min le_rfl (by nlinarith)

theorem mpBal_mono {d : Debt} {b b' : ℚ} (hr : 0 ≤ d.InterestRate) (h : b ≤ b') :
    mpBal d b ≤ mpBal d b' := by
  have hrm := monthlyRate_nonneg hr
  rw [mpBal_eq_max, mpBal_eq_max]
  exact max_le_max (by nlinarith) le_rfl

theorem mpPay_conserve (d : Debt) (b : ℚ) :
    mpPay d b = b * monthlyRate d + (b - mpBal d b) := by
  unfold mpBal; ring

theorem mpPayIf_nonneg {d : Debt} {b : ℚ} (hr : 0 ≤ d.InterestRate)
    (hmp : 0 < d.MinimumPayment) : 0 ≤ mpPayIf d b := by
  unfold mpPayIf
  split
  · exact (mpPay_pos (by assumption) hr hmp).le
  · exact le_rfl

theorem mpPayIf_le_minimum {d : Debt} {b : ℚ} (hmp : 0 < d.MinimumPayment) :
    mpPayIf d b ≤ d.MinimumPayment := by
  unfold mpPayIf
  split
  · exact mpPay_le_minimum d b
  · exact hmp.le

theorem mpBalIf_nonneg {d : Debt} {b : ℚ} (hb : 0 ≤ b) : 0 ≤ mpBalIf d b := by
  unfold mpBalIf
  split
  · exact mpBal_nonneg d b
  · exact hb

theorem mpBalIf_le_self {d : Debt} {b : ℚ} (hb : 0 ≤ b)
    (hcov : b * monthlyRate d ≤ d.MinimumPayment) : mpBalIf d b ≤ b := by
  unfold mpBalIf
  split
  · exact mpBal_le_self hb hcov
  · exact le_rfl

theorem mpBalIf_mono {d : Debt} {b b' : ℚ} (hr : 0 ≤ d.InterestRate) (hb : 0 ≤ b)
    (h : b ≤ b') : mpBalIf d b ≤ mpBalIf d b' := by
  unfold mpBalIf
  split <;> split
  · exact mpBal_mono hr h
  · rename_i h1 h2
    exact absurd (lt_of_lt_of_le h1 h) h2
  · rename_i h1 h2
    have hb0 : b = 0 := le_antisymm (not_lt.mp h1) hb
    rw [hb0]
    exact mpBal_nonneg d b'
  · exact h

theorem mpPayIf_mono {d : Debt} {b b' : ℚ} (hr : 0 ≤ d.InterestRate)
    (hmp : 0 < d.MinimumPayment) (h : b ≤ b') : mpPayIf d b ≤ mpPayIf d b' := by
  unfold mpPayIf
  split <;> split
  · exact mpPay_mono hr h
  · rename_i h1 h2
    exact absurd (lt_of_lt_of_le h1 h) h2
  · rename_i h1 h2
    exact (mpPay_pos h2 hr hmp).le
  · exact le_rfl

/-! ## List and map helpers -/

theorem updateFn_same (f : String → ℚ) (n : String) (v : ℚ) : updateFn f n v n = v := by
  unfold updateFn; rw [if_pos rfl]

theorem updateFn_other (f : String → ℚ) (n : String) (v : ℚ) {m : String} (h : m ≠ n) :
    updateFn f n v m = f m := by
  unfold updateFn; rw [if_neg h]

theorem name_notMem_of_nodup {d : Debt} {ds : List Debt}
    (hnd : ((d :: ds).map (·.Name)).Nodup) : ∀ d' ∈ ds, d'.Name ≠ d.Name := by
  intro d' hd' h
  rw [List.map_cons, List.nodup_cons] at hnd
  exact hnd.1 (h ▸ List.mem_map_of_mem (·.Name) hd')

theorem find?_name_of_nodup {debts : List Debt} {d : Debt}
    (hnd : (debts.map (·.Name)).Nodup) (hd : d ∈ debts) :
    debts.find? (fun e => e.Name == d.Name) = some d := by
  induction debts with
  | nil => cases hd
  | cons a l ih =>
    rcases List.mem_cons.mp hd with h | h
    · subst h
      simp [List.find?]
    · have hne : d.Name ≠ a.Name := name_notMem_of_nodup hnd d h
      rw [List.find?_cons_of_neg _ (by simpa using hne.symm)]
      exact ih (by rw [List.map_cons, List.nodup_cons] at hnd; exact hnd.2) h

theorem initBalances_name {debts : List Debt} {d : Debt}
    (hnd : (debts.map (·.Name)).Nodup) (hd : d ∈ debts) :
    initBalances debts d.Name = d.Amount := by
  unfold initBalances
  rw [find?_name_of_nodup hnd hd]

theorem imapOf_name {debts : List Debt} {d : Debt} (bal : String → ℚ)
    (hnd : (debts.map (·.Name)).Nodup) (hd : d ∈ debts) :
    imapOf debts bal d.Name = (if 0 < bal d.Name then bal d.Name * monthlyRate d else 0) := by
  unfold imapOf
  rw [find?_name_of_nodup hnd hd]

/-- The first element satisfying a predicate splits the list into an
unsatisfying prefix, the element, and a suffix. -/
theorem exists_first_split {α : Type} {l : List α} {p : α → Bool}
    (h : ∃ x ∈ l, p x = true) :
    ∃ pre e post, l = pre ++ e :: post ∧ p e = true ∧ ∀ q ∈ pre, p q = false := by
  induction l with
  | nil => obtain ⟨x, hx, _⟩ := h; cases hx
  | cons a l ih =>
    by_cases ha : p a = true
    · exact ⟨[], a, l, rfl, ha, by intro q hq; cases hq⟩
    · obtain ⟨x, hx, hpx⟩ := h
      rcases List.mem_cons.mp hx with rfl | hx'
      · exact absurd hpx ha
      · obtain ⟨pre, e, post, hl, he, hpre⟩ := ih ⟨x, hx', hpx⟩
        refine ⟨a :: pre, e, post, by rw [hl]; rfl, he, ?_⟩
        intro q hq
        rcases List.mem_cons.mp hq with rfl | hq'
        · exact Bool.eq_false_iff.mpr (fun hc => ha hc)
        · exact hpre q hq'

/-- If the second predicate implies the first on all elements, the first
find either returns the same element as the second or an element the second
predicate rejects. -/
theorem find?_imp {α : Type} {l : List α} {p q : α → Bool}
    (hpq : ∀ x ∈ l, q x = true → p x = true) {j2 : α}
    (hq : l.find? q = some j2) :
    ∃ j1, l.find? p = some j1 ∧ (j1 = j2 ∨ q j1 = false) := by
  induction l with
  | nil => cases hq
  | cons a l ih =>
    by_cases hpa : p a = true
    · rw [List.find?_cons_of_pos _ hpa]
      by_cases hqa : q a = true
      · rw [List.find?_cons_of_pos _ hqa] at hq
        exact ⟨a, rfl, Or.inl (by injection hq)⟩
      · exact ⟨a, rfl, Or.inr (Bool.eq_false_iff.mpr hqa)⟩
    · have hqa : ¬ q a = true := fun hc => hpa (hpq a (List.mem_cons_self a l) hc)
      rw [List.find?_cons_of_neg _ hqa] at hq
      rw [List.find?_cons_of_neg _ hpa]
      exact ih (fun x hx => hpq x (List.mem_cons_of_mem a hx)) hq

theorem balSum_update {debts : List Debt} {d : Debt} (bal : String → ℚ) (v : ℚ)
    (hnd : (debts.map (·.Name)).Nodup) (hd : d ∈ debts) :
    balSum debts (updateFn bal d.Name v) = balSum debts bal - bal d.Name + v := by
  induction debts with
  | nil => cases hd
  | cons a l ih =>
    rcases List.mem_cons.mp hd with rfl | h
    · have hothers : ∀ d' ∈ l, updateFn bal d.Name v d'.Name = bal d'.Name := by
        intro d' hd'
        exact updateFn_other bal d.Name v (name_notMem_of_nodup hnd d' hd')
      unfold balSum
      rw [List.map_cons, List.map_cons, List.sum_cons, List.sum_cons, updateFn_same,
        List.map_congr_left hothers]
      ring
    · have hne : d.Name ≠ a.Name := name_notMem_of_nodup hnd d h
      unfold balSum
      rw [List.map_cons, List.map_cons, List.sum_cons, List.sum_cons,
        updateFn_other bal d.Name v (fun hc => hne hc.symm)]
      have := ih (by rw [List.map_cons, List.nodup_cons] at hnd; exact hnd.2) h
      unfold balSum at this
      rw [this]
      ring

theorem balSum_congr {debts : List Debt} {bal bal' : String → ℚ}
    (h : ∀ d ∈ debts, bal d.Name = bal' d.Name) : balSum debts bal = balSum debts bal' := by
  unfold balSum
  exact congrArg List.sum (List.map_congr_left (fun d hd => h d hd))

/-! ## Characterization of the minimum-payment phase -/

theorem minPhaseStep_skip (imap : String → ℚ) (st : MinState) (d : Debt)
    (h : st.bal d.Name ≤ 0) : minPhaseStep imap st d = st := by
  unfold minPhaseStep; rw [if_pos h]

theorem minPhaseStep_active (imap : String → ℚ) (st : MinState) (d : Debt) (b : ℚ)
    (hbeq : st.bal d.Name = b) (hb : 0 < b) (hr : 0 ≤ d.InterestRate)
    (hmp : 0 < d.MinimumPayment) (hcov : b * monthlyRate d ≤ d.MinimumPayment)
    (havail : d.MinimumPayment ≤ st.available)
    (himap : imap d.Name = b * monthlyRate d) :
    minPhaseStep imap st d =
      { bal := updateFn st.bal d.Name (mpBal d b)
        available := st.available - mpPay d b
        payments := st.payments ++
          [⟨d.Name, roundTo2Decimals (mpPay d b), roundTo2Decimals (mpBal d b)⟩]
        totalPaid := st.totalPaid + mpPay d b } := by
  have hrm := monthlyRate_nonneg hr
  have hpmax := mpPay_le_maxPossible d b
  have hpmin := mpPay_le_minimum d b
  have hppos := mpPay_pos hb hr hmp
  have hpint := interest_le_mpPay hb.le hcov
  have hbalnn := mpBal_nonneg d b
  unfold minPhaseStep
  rw [if_neg (not_le.mpr (hbeq ▸ hb))]
  simp only [himap, hbeq]
  rw [if_neg (not_lt.mpr hcov)]
  rw [show (if b + b * monthlyRate d < d.MinimumPayment then b + b * monthlyRate d
      else d.MinimumPayment) = mpPay d b by
    unfold mpPay
    by_cases h1 : b + b * monthlyRate d < d.MinimumPayment
    · rw [if_pos h1, min_eq_right h1.le]
    · rw [if_neg h1, min_eq_left (not_lt.mp h1)]]
  rw [if_neg (not_lt.mpr (hpmin.trans havail))]
  rw [if_pos hppos]
  rw [if_neg (not_lt.mpr (sub_nonneg.mpr hpint))]
  rw [if_neg (not_lt.mpr (show (0:ℚ) ≤ b - (mpPay d b - b * monthlyRate d) from hbalnn))]
  rfl

/-- Complete characterization of the minimum-payment loop against the
closed forms, under the validation invariants: per-debt new balances,
untouched foreign names, remaining budget, total paid, and the exact list
of recorded payment entries. -/
theorem minPhaseGo_spec (imap bal₀ : String → ℚ) (rest : List Debt) :
    ∀ st : MinState,
      (rest.map (·.Name)).Nodup →
      (∀ d ∈ rest, 0 < d.MinimumPayment ∧ 0 ≤ d.InterestRate ∧ 0 ≤ bal₀ d.Name ∧
        bal₀ d.Name * monthlyRate d ≤ d.MinimumPayment ∧ st.bal d.Name = bal₀ d.Name ∧
        imap d.Name = (if 0 < bal₀ d.Name then bal₀ d.Name * monthlyRate d else 0)) →
      (rest.map (·.MinimumPayment)).sum ≤ st.available →
      (∀ d ∈ rest, (minPhaseGo imap rest st).bal d.Name = mpBalIf d (bal₀ d.Name)) ∧
      (∀ n, (∀ d ∈ rest, d.Name ≠ n) → (minPhaseGo imap rest st).bal n = st.bal n) ∧
      (minPhaseGo imap rest st).available =
        st.available - (rest.map (fun d => mpPayIf d (bal₀ d.Name))).sum ∧
      (minPhaseGo imap rest st).totalPaid =
        st.totalPaid + (rest.map (fun d => mpPayIf d (bal₀ d.Name))).sum ∧
      (minPhaseGo imap rest st).payments =
        st.payments ++ rest.filterMap (fun d => mpEntry d (bal₀ d.Name)) := by
  induction rest with
  | nil =>
    intro st _ _ _
    refine ⟨by simp, fun n _ => rfl, by simp [minPhaseGo], by simp [minPhaseGo],
      by simp [minPhaseGo]⟩
  | cons d ds ih =>
    intro st hnd hfacts havail
    obtain ⟨hmp, hr, hb0, hcov, hfreeze, himap⟩ := hfacts d (List.mem_cons_self d ds)
    have hndtail : (ds.map (·.Name)).Nodup := by
      rw [List.map_cons, List.nodup_cons] at hnd; exact hnd.2
    have hnames : ∀ d' ∈ ds, d'.Name ≠ d.Name := name_notMem_of_nodup hnd
    rw [List.map_cons, List.sum_cons] at havail
    have hsumnn : 0 ≤ (ds.map (·.MinimumPayment)).sum := by
      apply List.sum_nonneg
      intro x hx
      obtain ⟨d', hd', rfl⟩ := List.mem_map.mp hx
      exact (hfacts d' (List.mem_cons_of_mem d hd')).1.le
    have hrungo : minPhaseGo imap (d :: ds) st = minPhaseGo imap ds (minPhaseStep imap st d) := rfl
    by_cases hb : 0 < bal₀ d.Name
    · have himap' : imap d.Name = bal₀ d.Name * monthlyRate d := by rw [himap, if_pos hb]
      have hstep := minPhaseStep_active imap st d (bal₀ d.Name) hfreeze hb hr hmp hcov
        (by linarith) himap'
      have hpmin := mpPay_le_minimum d (bal₀ d.Name)
      obtain ⟨ih1, ih2, ih3, ih4, ih5⟩ := ih (minPhaseStep imap st d) hndtail
        (by
          intro d' hd'
          obtain ⟨h1, h2, h3, h4, h5, h6⟩ := hfacts d' (List.mem_cons_of_mem d hd')
          refine ⟨h1, h2, h3, h4, ?_, h6⟩
          rw [hstep]
          exact (updateFn_other st.bal d.Name _ (hnames d' hd')).trans h5)
        (by rw [hstep]; simp only; linarith)
      refine ⟨?_, ?_, ?_, ?_, ?_⟩
      · intro d' hd'
        rcases List.mem_cons.mp hd' with rfl | hd''
        · rw [hrungo, ih2 d'.Name hnames, hstep]
          simp only
          rw [updateFn_same, mpBalIf, if_pos hb]
        · rw [hrungo]; exact ih1 d' hd''
      · intro n hn
        rw [hrungo, ih2 n (fun d' hd' => hn d' (List.mem_cons_of_mem d hd')), hstep]
        simp only
        exact updateFn_other st.bal d.Name _ (hn d (List.mem_cons_self d ds)).symm
      · rw [hrungo, ih3, hstep]
        simp only [List.map_cons, List.sum_cons, mpPayIf, if_pos hb]
        ring
      · rw [hrungo, ih4, hstep]
        simp only [List.map_cons, List.sum_cons, mpPayIf, if_pos hb]
        ring
      · rw [hrungo, ih5, hstep]
        simp only [List.filterMap_cons, mpEntry, if_pos hb]
        rw [List.append_assoc]
        rfl
    · have hbz : st.bal d.Name ≤ 0 := by rw [hfreeze]; exact not_lt.mp hb
      have hskip := minPhaseStep_skip imap st d hbz
      obtain ⟨ih1, ih2, ih3, ih4, ih5⟩ := ih (minPhaseStep imap st d) hndtail
        (by
          intro d' hd'
          obtain ⟨h1, h2, h3, h4, h5, h6⟩ := hfacts d' (List.mem_cons_of_mem d hd')
          exact ⟨h1, h2, h3, h4, by rw [hskip]; exact h5, h6⟩)
        (by rw [hskip]; linarith)
      refine ⟨?_, ?_, ?_, ?_, ?_⟩
      · intro d' hd'
        rcases List.mem_cons.mp hd' with rfl | hd''
        · rw [hrungo, ih2 d'.Name hnames, hskip, hfreeze, mpBalIf, if_neg hb]
        · rw [hrungo]; exact ih1 d' hd''
      · intro n hn
        rw [hrungo, ih2 n (fun d' hd' => hn d' (List.mem_cons_of_mem d hd')), hskip]
      · rw [hrungo, ih3, hskip]
        simp only [List.map_cons, List.sum_cons, mpPayIf, if_neg hb]
        ring
      · rw [hrungo, ih4, hskip]
        simp only [List.map_cons, List.sum_cons, mpPayIf, if_neg hb]
        ring
      · rw [hrungo, ih5, hskip]
        simp only [List.filterMap_cons, mpEntry, if_neg hb]

/-! ## More helpers -/

theorem eq_of_name_eq {debts : List Debt} (hnd : (debts.map (·.Name)).Nodup)
    {d d' : Debt} (hd : d ∈ debts) (hd' : d' ∈ debts) (h : d.Name = d'.Name) : d = d' := by
  have h1 := find?_name_of_nodup hnd hd
  have h2 := find?_name_of_nodup hnd hd'
  rw [h] at h1
  rw [h1] at h2
  injection h2

theorem sum_map_add {α : Type} (l : List α) (f g : α → ℚ) :
    (l.map (fun a => f a + g a)).sum = (l.map f).sum + (l.map g).sum := by
  induction l with
  | nil => simp
  | cons a l ih => simp only [List.map_cons, List.sum_cons, ih]; ring

theorem paySum_append (a b : List MonthlyPayment) : paySum (a ++ b) = paySum a + paySum b := by
  unfold paySum
  rw [List.map_append, List.sum_append]

theorem paySum_cons (p : MonthlyPayment) (l : List MonthlyPayment) :
    paySum (p :: l) = p.Payment + paySum l := by
  unfold paySum
  rw [List.map_cons, List.sum_cons]

/-- The state after the minimum-payment phase, characterized from the
validation facts and the balance invariant. -/
theorem minPhaseResult_spec (debts : List Debt) (budget : ℚ) (bal : String → ℚ)
    (hv : ValidDebts debts budget) (hinv : BalInv debts bal) :
    (∀ d ∈ debts, (minPhaseResult debts budget bal).bal d.Name = mpBalIf d (bal d.Name)) ∧
    (∀ n, (∀ d ∈ debts, d.Name ≠ n) → (minPhaseResult debts budget bal).bal n = bal n) ∧
    (minPhaseResult debts budget bal).available =
      budget - (debts.map (fun d => mpPayIf d (bal d.Name))).sum ∧
    (minPhaseResult debts budget bal).totalPaid =
      (debts.map (fun d => mpPayIf d (bal d.Name))).sum ∧
    (minPhaseResult debts budget bal).payments =
      debts.filterMap (fun d => mpEntry d (bal d.Name)) := by
  unfold minPhaseResult
  have h := minPhaseGo_spec (imapOf debts bal) bal debts ⟨bal, budget, [], 0⟩
    hv.namesNodup
    (by
      intro d hd
      refine ⟨hv.minPos d hd, hv.ratePos d hd, (hinv d hd).1, ?_, rfl,
        imapOf_name bal hv.namesNodup hd⟩
      calc bal d.Name * monthlyRate d ≤ d.Amount * monthlyRate d :=
            mul_le_mul_of_nonneg_right (hinv d hd).2 (monthlyRate_nonneg (hv.ratePos d hd))
        _ ≤ d.MinimumPayment := hv.minCover d hd)
    hv.budgetCover
  obtain ⟨h1, h2, h3, h4, h5⟩ := h
  exact ⟨h1, h2, h3, by rw [h4]; ring_nf, by rw [h5]; simp⟩

/-- Total minimum-phase payment is at most the sum of minimum payments. -/
theorem mpPaySum_le_budget (debts : List Debt) (budget : ℚ) (bal : String → ℚ)
    (hv : ValidDebts debts budget) :
    (debts.map (fun d => mpPayIf d (bal d.Name))).sum ≤ budget := by
  calc (debts.map (fun d => mpPayIf d (bal d.Name))).sum
      ≤ (debts.map (·.MinimumPayment)).sum :=
        List.sum_le_sum (fun d hd => mpPayIf_le_minimum (hv.minPos d hd))
    _ ≤ budget := hv.budgetCover

/-! ## Characterization of the surplus phase -/

theorem surplusUpdate_spec (nm : String) (extra newBal : ℚ) :
    ∀ (pre : List MonthlyPayment) (e : MonthlyPayment) (post : List MonthlyPayment),
      e.DebtName = nm → (∀ q ∈ pre, q.DebtName ≠ nm) →
      surplusUpdate nm extra newBal (pre ++ e :: post) =
        some (pre ++ { e with Payment := roundTo2Decimals (e.Payment + extra)
                              RemainingBalance := roundTo2Decimals newBal } :: post) := by
  intro pre
  induction pre with
  | nil =>
    intro e post he _
    simp only [List.nil_append, surplusUpdate]
    rw [if_pos he]
  | cons q pre ih =>
    intro e post he hpre
    simp only [List.cons_append, surplusUpdate]
    rw [if_neg (hpre q (List.mem_cons_self q pre))]
    have harr : pre.append (e :: post) = pre ++ e :: post := rfl
    rw [harr, ih e post he (fun q' hq' => hpre q' (List.mem_cons_of_mem q hq'))]

theorem applySurplus_noop_budget (debts : List Debt) (st : MinState)
    (h : ¬ 0 < st.available) : applySurplus debts st = st := by
  unfold applySurplus
  rw [if_neg h]

theorem applySurplus_noop_paid (debts : List Debt) (st : MinState)
    (h : debts.find? (fun d => decide (0 < st.bal d.Name)) = none) :
    applySurplus debts st = st := by
  unfold applySurplus
  rw [h]
  split <;> rfl

theorem applySurplus_target (debts : List Debt) (st : MinState) (j : Debt)
    (hpos : 0 < st.available)
    (hfind : debts.find? (fun d => decide (0 < st.bal d.Name)) = some j)
    (pre : List MonthlyPayment) (e : MonthlyPayment) (post : List MonthlyPayment)
    (hsplit : st.payments = pre ++ e :: post) (he : e.DebtName = j.Name)
    (hpre : ∀ q ∈ pre, q.DebtName ≠ j.Name) :
    applySurplus debts st =
      { bal := updateFn st.bal j.Name (st.bal j.Name - min st.available (st.bal j.Name))
        available := st.available - min st.available (st.bal j.Name)
        totalPaid := st.totalPaid + min st.available (st.bal j.Name)
        payments := pre ++
          { e with Payment := roundTo2Decimals (e.Payment + min st.available (st.bal j.Name))
                   RemainingBalance := roundTo2Decimals
                     (st.bal j.Name - min st.available (st.bal j.Name)) } :: post } := by
  unfold applySurplus
  rw [if_pos hpos, hfind]
  have hextra : (if st.bal j.Name < st.available then st.bal j.Name else st.available) =
      min st.available (st.bal j.Name) := by
    rcases lt_or_ge (st.bal j.Name) st.available with h | h
    · rw [if_pos h, min_eq_right h.le]
    · rw [if_neg (not_lt.mpr h), min_eq_left h]
  simp only [hextra]
  rw [if_neg (not_lt.mpr (show (0:ℚ) ≤ st.bal j.Name - min st.available (st.bal j.Name) by
    linarith [min_le_right st.available (st.bal j.Name)]))]
  rw [hsplit, surplusUpdate_spec j.Name _ _ pre e post he hpre]

/-! ## Month-level lemmas -/

theorem sum_map_sub {α : Type} (l : List α) (f g : α → ℚ) :
    (l.map (fun a => f a - g a)).sum = (l.map f).sum - (l.map g).sum := by
  induction l with
  | nil => simp
  | cons a l ih => simp only [List.map_cons, List.sum_cons, ih]; ring

theorem balCover {debts : List Debt} {budget : ℚ} {bal : String → ℚ}
    (hv : ValidDebts debts budget) (hinv : BalInv debts bal) :
    ∀ d ∈ debts, bal d.Name * monthlyRate d ≤ d.MinimumPayment := by
  intro d hd
  calc bal d.Name * monthlyRate d ≤ d.Amount * monthlyRate d :=
        mul_le_mul_of_nonneg_right (hinv d hd).2 (monthlyRate_nonneg (hv.ratePos d hd))
    _ ≤ d.MinimumPayment := hv.minCover d hd

/-- Exact money conservation of the minimum-payment phase: the sum of the
planned payments is the month's interest plus the total principal
reduction. -/
theorem mpPaySum_conserve (debts : List Debt) (bal : String → ℚ) :
    (debts.map (fun d => mpPayIf d (bal d.Name))).sum =
      monthInterest debts bal +
        (balSum debts bal - (debts.map (fun d => mpBalIf d (bal d.Name))).sum) := by
  have hpt : ∀ d ∈ debts, mpPayIf d (bal d.Name) =
      (if 0 < bal d.Name then bal d.Name * monthlyRate d else 0) +
        (bal d.Name - mpBalIf d (bal d.Name)) := by
    intro d _
    unfold mpPayIf mpBalIf
    split
    · rw [mpPay_conserve]
    · ring
  rw [List.map_congr_left hpt, sum_map_add]
  unfold monthInterest balSum
  rw [sum_map_sub]

/-- Rounding accuracy of the recorded minimum-phase entries. -/
theorem paySum_entries_bound (debts : List Debt) (bal : String → ℚ) :
    |paySum (debts.filterMap (fun d => mpEntry d (bal d.Name))) -
      (debts.map (fun d => mpPayIf d (bal d.Name))).sum| ≤
      ((debts.filterMap (fun d => mpEntry d (bal d.Name))).length : ℚ) / 200 := by
  induction debts with
  | nil => simp [paySum]
  | cons d ds ih =>
    by_cases hb : 0 < bal d.Name
    · have hsome : mpEntry d (bal d.Name) = some ⟨d.Name, roundTo2Decimals (mpPay d (bal d.Name)),
          roundTo2Decimals (mpBal d (bal d.Name))⟩ := by
        unfold mpEntry; rw [if_pos hb]
      have hpayif : mpPayIf d (bal d.Name) = mpPay d (bal d.Name) := by
        unfold mpPayIf; rw [if_pos hb]
      rw [@List.filterMap_cons_some Debt MonthlyPayment (fun x => mpEntry x (bal x.Name)) d ds _
          hsome, List.map_cons, List.sum_cons, hpayif, paySum_cons, List.length_cons]
      dsimp only
      have h1 := abs_roundTo2Decimals_sub (mpPay d (bal d.Name))
      have h2 :
          roundTo2Decimals (mpPay d (bal d.Name)) +
            paySum (ds.filterMap (fun d => mpEntry d (bal d.Name))) -
            (mpPay d (bal d.Name) + (ds.map (fun d => mpPayIf d (bal d.Name))).sum) =
          (roundTo2Decimals (mpPay d (bal d.Name)) - mpPay d (bal d.Name)) +
            (paySum (ds.filterMap (fun d => mpEntry d (bal d.Name))) -
              (ds.map (fun d => mpPayIf d (bal d.Name))).sum) := by ring
      rw [h2]
      calc |(roundTo2Decimals (mpPay d (bal d.Name)) - mpPay d (bal d.Name)) +
            (paySum (ds.filterMap (fun d => mpEntry d (bal d.Name))) -
              (ds.map (fun d => mpPayIf d (bal d.Name))).sum)|
          ≤ |roundTo2Decimals (mpPay d (bal d.Name)) - mpPay d (bal d.Name)| +
            |paySum (ds.filterMap (fun d => mpEntry d (bal d.Name))) -
              (ds.map (fun d => mpPayIf d (bal d.Name))).sum| := abs_add _ _
        _ ≤ 1/200 + ((ds.filterMap (fun d => mpEntry d (bal d.Name))).length : ℚ) / 200 := by
            exact add_le_add h1 ih
        _ = (((ds.filterMap (fun d => mpEntry d (bal d.Name))).length : ℚ) + 1) / 200 := by
            ring
        _ = ((((ds.filterMap (fun d => mpEntry d (bal d.Name))).length + 1 : ℕ)) : ℚ) / 200 := by
            push_cast; ring
    · have hnone : mpEntry d (bal d.Name) = none := by
        unfold mpEntry; rw [if_neg hb]
      have hpayif : mpPayIf d (bal d.Name) = 0 := by
        unfold mpPayIf; rw [if_neg hb]
      rw [@List.filterMap_cons_none Debt MonthlyPayment (fun x => mpEntry x (bal x.Name)) d ds
          hnone, List.map_cons, List.sum_cons, hpayif, zero_add]
      exact ih

/-- The workhorse month lemma: balance invariants, exact conservation, and
per-month rounding accuracy of the recorded payments. -/
theorem simMonth_spec (debts : List Debt) (budget : ℚ) (bal : String → ℚ)
    (hv : ValidDebts debts budget) (hinv : BalInv debts bal) :
    (∀ d ∈ debts, 0 ≤ (simMonth debts budget bal).bal d.Name ∧
      (simMonth debts budget bal).bal d.Name ≤ bal d.Name) ∧
    (simMonth debts budget bal).totalPaid =
      monthInterest debts bal +
        (balSum debts bal - balSum debts (simMonth debts budget bal).bal) ∧
    |paySum (simMonth debts budget bal).payments - (simMonth debts budget bal).totalPaid| ≤
      ((simMonth debts budget bal).payments.length : ℚ) / 100 := by
  obtain ⟨m1, m2, m3, m4, m5⟩ := minPhaseResult_spec debts budget bal hv hinv
  have hbal_eq : (simMonth debts budget bal).bal =
      (applySurplus debts (minPhaseResult debts budget bal)).bal := rfl
  have hpay_eq : (simMonth debts budget bal).payments =
      (applySurplus debts (minPhaseResult debts budget bal)).payments := rfl
  have htp_eq : (simMonth debts budget bal).totalPaid =
      (applySurplus debts (minPhaseResult debts budget bal)).totalPaid := rfl
  have hdec : ∀ d ∈ debts, 0 ≤ (minPhaseResult debts budget bal).bal d.Name ∧
      (minPhaseResult debts budget bal).bal d.Name ≤ bal d.Name := by
    intro d hd
    rw [m1 d hd]
    exact ⟨mpBalIf_nonneg (hinv d hd).1, mpBalIf_le_self (hinv d hd).1 (balCover hv hinv d hd)⟩
  have hbalsum_st : balSum debts (minPhaseResult debts budget bal).bal =
      (debts.map (fun d => mpBalIf d (bal d.Name))).sum := by
    unfold balSum
    exact congrArg List.sum (List.map_congr_left m1)
  have hconsv_st : (minPhaseResult debts budget bal).totalPaid =
      monthInterest debts bal +
        (balSum debts bal - balSum debts (minPhaseResult debts budget bal).bal) := by
    rw [m4, hbalsum_st, mpPaySum_conserve]
  have haccur_st :
      |paySum (minPhaseResult debts budget bal).payments -
        (minPhaseResult debts budget bal).totalPaid| ≤
      (((minPhaseResult debts budget bal).payments.length : ℚ)) / 200 := by
    rw [m4, m5]
    exact paySum_entries_bound debts bal
  have hlen_nn : (0:ℚ) ≤ ((minPhaseResult debts budget bal).payments.length : ℚ) :=
    Nat.cast_nonneg _
  by_cases hav : 0 < (minPhaseResult debts budget bal).available
  case neg =>
    have hno := applySurplus_noop_budget debts (minPhaseResult debts budget bal) hav
    rw [hbal_eq, hpay_eq, htp_eq, hno]
    exact ⟨hdec, hconsv_st, by linarith [haccur_st]⟩
  case pos =>
    cases hfind : debts.find? (fun d => decide (0 < (minPhaseResult debts budget bal).bal d.Name)) with
    | none =>
      have hno := applySurplus_noop_paid debts (minPhaseResult debts budget bal) hfind
      rw [hbal_eq, hpay_eq, htp_eq, hno]
      exact ⟨hdec, hconsv_st, by linarith [haccur_st]⟩
    | some j =>
      have hj : j ∈ debts := List.mem_of_find?_eq_some hfind
      have hjpos' := @List.find?_some Debt
        (fun d => decide (0 < (minPhaseResult debts budget bal).bal d.Name)) j debts hfind
      have hjpos : 0 < (minPhaseResult debts budget bal).bal j.Name :=
        of_decide_eq_true hjpos'
      have hjbal0 : 0 < bal j.Name := by
        by_contra hc
        have := m1 j hj
        rw [mpBalIf, if_neg hc] at this
        exact absurd (this ▸ hjpos) hc
      have hmem : (⟨j.Name, roundTo2Decimals (mpPay j (bal j.Name)),
          roundTo2Decimals (mpBal j (bal j.Name))⟩ : MonthlyPayment) ∈
          (minPhaseResult debts budget bal).payments := by
        rw [m5]
        exact List.mem_filterMap.mpr ⟨j, hj, by rw [mpEntry, if_pos hjbal0]⟩
      obtain ⟨pre, e, post, hsplit, he, hpre⟩ :=
        exists_first_split (l := (minPhaseResult debts budget bal).payments)
          (p := fun q => q.DebtName == j.Name) ⟨_, hmem, by simp⟩
      have he' : e.DebtName = j.Name := by simpa using he
      have hpre' : ∀ q ∈ pre, q.DebtName ≠ j.Name := by
        intro q hq
        simpa using hpre q hq
      have happly := applySurplus_target debts (minPhaseResult debts budget bal) j hav hfind
        pre e post hsplit he' hpre'
      have hextra_le : min (minPhaseResult debts budget bal).available
          ((minPhaseResult debts budget bal).bal j.Name) ≤
          (minPhaseResult debts budget bal).bal j.Name := min_le_right _ _
      have hextra_nn : 0 ≤ min (minPhaseResult debts budget bal).available
          ((minPhaseResult debts budget bal).bal j.Name) := le_min hav.le hjpos.le
      refine ⟨?_, ?_, ?_⟩
      · intro d hd
        rw [hbal_eq, happly]
        simp only
        by_cases hdn : d.Name = j.Name
        · rw [hdn, updateFn_same]
          have h2 : (minPhaseResult debts budget bal).bal j.Name ≤ bal j.Name := (hdec j hj).2
          exact ⟨by linarith, by linarith⟩
        · rw [updateFn_other _ _ _ hdn]
          exact hdec d hd
      · rw [htp_eq, hbal_eq, happly]
        simp only
        rw [balSum_update _ _ hv.namesNodup hj]
        rw [hconsv_st]
        ring
      · rw [htp_eq, hpay_eq, happly]
        simp only
        have hlen2 : ((pre ++
            { e with Payment := roundTo2Decimals (e.Payment + min (minPhaseResult debts budget bal).available ((minPhaseResult debts budget bal).bal j.Name))
                     RemainingBalance := roundTo2Decimals ((minPhaseResult debts budget bal).bal j.Name - min (minPhaseResult debts budget bal).available ((minPhaseResult debts budget bal).bal j.Name)) } :: post).length : ℚ) =
            ((minPhaseResult debts budget bal).payments.length : ℚ) := by
          rw [hsplit]
          push_cast [List.length_append, List.length_cons]
          ring
        rw [hlen2]
        have hps2 : paySum (pre ++
            { e with Payment := roundTo2Decimals (e.Payment + min (minPhaseResult debts budget bal).available ((minPhaseResult debts budget bal).bal j.Name))
                     RemainingBalance := roundTo2Decimals ((minPhaseResult debts budget bal).bal j.Name - min (minPhaseResult debts budget bal).available ((minPhaseResult debts budget bal).bal j.Name)) } :: post) =
            paySum (minPhaseResult debts budget bal).payments - e.Payment +
              roundTo2Decimals (e.Payment + min (minPhaseResult debts budget bal).available ((minPhaseResult debts budget bal).bal j.Name)) := by
          rw [hsplit, paySum_append, paySum_append, paySum_cons, paySum_cons]
          simp only
          ring
        rw [hps2]
        have hlen1 : 1 ≤ ((minPhaseResult debts budget bal).payments.length : ℚ) := by
          rw [hsplit]
          push_cast [List.length_append, List.length_cons]
          have : (0:ℚ) ≤ (pre.length : ℚ) := Nat.cast_nonneg _
          have : (0:ℚ) ≤ (post.length : ℚ) := Nat.cast_nonneg _
          linarith [Nat.cast_nonneg (α := ℚ) pre.length, Nat.cast_nonneg (α := ℚ) post.length]
        have hr2 := abs_roundTo2Decimals_sub
          (e.Payment + min (minPhaseResult debts budget bal).available ((minPhaseResult debts budget bal).bal j.Name))
        have hre : paySum (minPhaseResult debts budget bal).payments - e.Payment +
              roundTo2Decimals (e.Payment + min (minPhaseResult debts budget bal).available ((minPhaseResult debts budget bal).bal j.Name)) -
              ((minPhaseResult debts budget bal).totalPaid + min (minPhaseResult debts budget bal).available ((minPhaseResult debts budget bal).bal j.Name)) =
            (paySum (minPhaseResult debts budget bal).payments - (minPhaseResult debts budget bal).totalPaid) +
              (roundTo2Decimals (e.Payment + min (minPhaseResult debts budget bal).available ((minPhaseResult debts budget bal).bal j.Name)) -
                (e.Payment + min (minPhaseResult debts budget bal).available ((minPhaseResult debts budget bal).bal j.Name))) := by
          ring
        rw [hre]
        calc |(paySum (minPhaseResult debts budget bal).payments - (minPhaseResult debts budget bal).totalPaid) +
              (roundTo2Decimals (e.Payment + min (minPhaseResult debts budget bal).available ((minPhaseResult debts budget bal).bal j.Name)) -
                (e.Payment + min (minPhaseResult debts budget bal).available ((minPhaseResult debts budget bal).bal j.Name)))|
            ≤ |paySum (minPhaseResult debts budget bal).payments - (minPhaseResult debts budget bal).totalPaid| +
              |roundTo2Decimals (e.Payment + min (minPhaseResult debts budget bal).available ((minPhaseResult debts budget bal).bal j.Name)) -
                (e.Payment + min (minPhaseResult debts budget bal).available ((minPhaseResult debts budget bal).bal j.Name))| := abs_add _ _
          _ ≤ ((minPhaseResult debts budget bal).payments.length : ℚ) / 200 + 1/200 := by
              exact add_le_add haccur_st hr2
          _ ≤ ((minPhaseResult debts budget bal).payments.length : ℚ) / 100 := by
              linarith

/-! ## Monotonicity in the available budget -/

theorem ValidDebts.relax {debts : List Debt} {b1 b2 : ℚ} (hv : ValidDebts debts b1)
    (hb : b1 ≤ b2) : ValidDebts debts b2 :=
  ⟨hv.amountPos, hv.ratePos, hv.minPos, hv.minCover, hv.budgetCover.trans hb, hv.namesNodup⟩

theorem monthInterest_nonneg {debts : List Debt} {bal : String → ℚ}
    (hr : ∀ d ∈ debts, 0 ≤ d.InterestRate) : 0 ≤ monthInterest debts bal := by
  unfold monthInterest
  apply List.sum_nonneg
  intro x hx
  obtain ⟨d, hd, rfl⟩ := List.mem_map.mp hx
  split
  · exact mul_nonneg (by linarith [show (0:ℚ) < bal d.Name from by assumption])
      (monthlyRate_nonneg (hr d hd))
  · exact le_rfl

theorem monthInterest_mono {debts : List Debt} {bal1 bal2 : String → ℚ}
    (hr : ∀ d ∈ debts, 0 ≤ d.InterestRate)
    (hdom : ∀ d ∈ debts, bal2 d.Name ≤ bal1 d.Name) :
    monthInterest debts bal2 ≤ monthInterest debts bal1 := by
  unfold monthInterest
  apply List.sum_le_sum
  intro d hd
  split <;> split
  · exact mul_le_mul_of_nonneg_right (hdom d hd) (monthlyRate_nonneg (hr d hd))
  · rename_i h1 h2
    exact absurd (lt_of_lt_of_le h1 (hdom d hd)) h2
  · rename_i h1 h2
    exact mul_nonneg (by linarith) (monthlyRate_nonneg (hr d hd))
  · exact le_rfl

theorem allPaid_mono {debts : List Debt} {bal1 bal2 : String → ℚ}
    (hdom : ∀ d ∈ debts, bal2 d.Name ≤ bal1 d.Name)
    (h : allPaid debts bal1 = true) : allPaid debts bal2 = true := by
  unfold allPaid at h ⊢
  rw [List.all_eq_true] at h ⊢
  intro d hd
  exact decide_eq_true (le_trans (hdom d hd) (of_decide_eq_true (h d hd)))

theorem sub_min_eq_max (a av : ℚ) : a - min av a = max (a - av) 0 := by
  rcases le_total av a with h | h
  · rw [min_eq_left h, max_eq_left (by linarith)]
  · rw [min_eq_right h, max_eq_right (by linarith), sub_self]

theorem sub_min_mono {a b av1 av2 : ℚ} (hab : a ≤ b) (hav : av1 ≤ av2) :
    a - min av2 a ≤ b - min av1 b := by
  rw [sub_min_eq_max, sub_min_eq_max]
  exact max_le_max (by linarith) le_rfl

/-- After the minimum phase, every debt that is still active has a recorded
payment entry; the payment list splits at the first such entry. -/
theorem surplus_entry_exists (debts : List Debt) (budget : ℚ) (bal : String → ℚ)
    (hv : ValidDebts debts budget) (hinv : BalInv debts bal) {j : Debt} (hj : j ∈ debts)
    (hjpos : 0 < (minPhaseResult debts budget bal).bal j.Name) :
    ∃ pre e post, (minPhaseResult debts budget bal).payments = pre ++ e :: post ∧
      e.DebtName = j.Name ∧ ∀ q ∈ pre, q.DebtName ≠ j.Name := by
  obtain ⟨m1, _, _, _, m5⟩ := minPhaseResult_spec debts budget bal hv hinv
  have hjbal0 : 0 < bal j.Name := by
    by_contra hc
    have := m1 j hj
    rw [mpBalIf, if_neg hc] at this
    exact absurd (this ▸ hjpos) hc
  have hmem : (⟨j.Name, roundTo2Decimals (mpPay j (bal j.Name)),
      roundTo2Decimals (mpBal j (bal j.Name))⟩ : MonthlyPayment) ∈
      (minPhaseResult debts budget bal).payments := by
    rw [m5]
    exact List.mem_filterMap.mpr ⟨j, hj, by rw [mpEntry, if_pos hjbal0]⟩
  obtain ⟨pre, e, post, hsplit, he, hpre⟩ :=
    exists_first_split (l := (minPhaseResult debts budget bal).payments)
      (p := fun q => q.DebtName == j.Name) ⟨_, hmem, by simp⟩
  exact ⟨pre, e, post, hsplit, by simpa using he, fun q hq => by simpa using hpre q hq⟩

/-- The balance map produced by the surplus phase when it has a target. -/
theorem applySurplus_bal_target (debts : List Debt) (budget : ℚ) (bal : String → ℚ)
    (hv : ValidDebts debts budget) (hinv : BalInv debts bal) {j : Debt}
    (hav : 0 < (minPhaseResult debts budget bal).available)
    (hfind : debts.find?
      (fun d => decide (0 < (minPhaseResult debts budget bal).bal d.Name)) = some j) :
    (applySurplus debts (minPhaseResult debts budget bal)).bal =
      updateFn (minPhaseResult debts budget bal).bal j.Name
        ((minPhaseResult debts budget bal).bal j.Name -
          min (minPhaseResult debts budget bal).available
            ((minPhaseResult debts budget bal).bal j.Name)) := by
  have hj : j ∈ debts := List.mem_of_find?_eq_some hfind
  have hjpos' := @List.find?_some Debt
    (fun d => decide (0 < (minPhaseResult debts budget bal).bal d.Name)) j debts hfind
  have hjpos : 0 < (minPhaseResult debts budget bal).bal j.Name := of_decide_eq_true hjpos'
  obtain ⟨pre, e, post, hsplit, he, hpre⟩ := surplus_entry_exists debts budget bal hv hinv hj hjpos
  rw [applySurplus_target debts (minPhaseResult debts budget bal) j hav hfind pre e post
    hsplit he hpre]

/-- One-month domination: with the same debts, a larger budget, and
pointwise smaller balances, the month produces pointwise smaller balances. -/
theorem simMonth_mono (debts : List Debt) (b1 b2 : ℚ) (bal1 bal2 : String → ℚ)
    (hv1 : ValidDebts debts b1) (hb : b1 ≤ b2)
    (hinv1 : BalInv debts bal1) (hinv2 : BalInv debts bal2)
    (hdom : ∀ d ∈ debts, bal2 d.Name ≤ bal1 d.Name) :
    ∀ d ∈ debts, (simMonth debts b2 bal2).bal d.Name ≤ (simMonth debts b1 bal1).bal d.Name := by
  have hv2 : ValidDebts debts b2 := hv1.relax hb
  obtain ⟨m11, m12, m13, m14, m15⟩ := minPhaseResult_spec debts b1 bal1 hv1 hinv1
  obtain ⟨m21, m22, m23, m24, m25⟩ := minPhaseResult_spec debts b2 bal2 hv2 hinv2
  have hdom' : ∀ d ∈ debts, (minPhaseResult debts b2 bal2).bal d.Name ≤
      (minPhaseResult debts b1 bal1).bal d.Name := by
    intro d hd
    rw [m11 d hd, m21 d hd]
    exact mpBalIf_mono (hv1.ratePos d hd) (hinv2 d hd).1 (hdom d hd)
  have hnn2 : ∀ d ∈ debts, 0 ≤ (minPhaseResult debts b2 bal2).bal d.Name := by
    intro d hd
    rw [m21 d hd]
    exact mpBalIf_nonneg (hinv2 d hd).1
  have hnn1 : ∀ d ∈ debts, 0 ≤ (minPhaseResult debts b1 bal1).bal d.Name := by
    intro d hd
    rw [m11 d hd]
    exact mpBalIf_nonneg (hinv1 d hd).1
  have havail12 : (minPhaseResult debts b1 bal1).available ≤
      (minPhaseResult debts b2 bal2).available := by
    rw [m13, m23]
    have : (debts.map (fun d => mpPayIf d (bal2 d.Name))).sum ≤
        (debts.map (fun d => mpPayIf d (bal1 d.Name))).sum :=
      List.sum_le_sum (fun d hd =>
        mpPayIf_mono (hv1.ratePos d hd) (hv1.minPos d hd) (hdom d hd))
    linarith
  have hbal_eq1 : (simMonth debts b1 bal1).bal =
      (applySurplus debts (minPhaseResult debts b1 bal1)).bal := rfl
  have hbal_eq2 : (simMonth debts b2 bal2).bal =
      (applySurplus debts (minPhaseResult debts b2 bal2)).bal := rfl
  rw [hbal_eq1, hbal_eq2]
  by_cases hav2 : 0 < (minPhaseResult debts b2 bal2).available
  case neg =>
    have hav1 : ¬ 0 < (minPhaseResult debts b1 bal1).available := by
      intro hc; exact hav2 (lt_of_lt_of_le hc havail12)
    rw [applySurplus_noop_budget _ _ hav1, applySurplus_noop_budget _ _ hav2]
    exact hdom'
  case pos =>
    cases hfind2 : debts.find?
        (fun d => decide (0 < (minPhaseResult debts b2 bal2).bal d.Name)) with
    | none =>
      rw [applySurplus_noop_paid _ _ hfind2]
      have hall2 : ∀ d ∈ debts, (minPhaseResult debts b2 bal2).bal d.Name ≤ 0 := by
        intro d hd
        have := List.find?_eq_none.mp hfind2 d hd
        simpa using this
      by_cases hav1 : 0 < (minPhaseResult debts b1 bal1).available
      · cases hfind1 : debts.find?
            (fun d => decide (0 < (minPhaseResult debts b1 bal1).bal d.Name)) with
        | none =>
          rw [applySurplus_noop_paid _ _ hfind1]
          exact hdom'
        | some j1 =>
          rw [applySurplus_bal_target debts b1 bal1 hv1 hinv1 hav1 hfind1]
          intro d hd
          by_cases hdn : d.Name = j1.Name
          · rw [hdn, updateFn_same]
            have h1 : (minPhaseResult debts b2 bal2).bal d.Name ≤ 0 := hall2 d hd
            rw [hdn] at h1
            have h2 := min_le_right (minPhaseResult debts b1 bal1).available
              ((minPhaseResult debts b1 bal1).bal j1.Name)
            linarith
          · rw [updateFn_other _ _ _ hdn]
            exact hdom' d hd
      · rw [applySurplus_noop_budget _ _ hav1]
        exact hdom'
    | some j2 =>
      have hj2 : j2 ∈ debts := List.mem_of_find?_eq_some hfind2
      have hj2pos' := @List.find?_some Debt
        (fun d => decide (0 < (minPhaseResult debts b2 bal2).bal d.Name)) j2 debts hfind2
      have hj2pos : 0 < (minPhaseResult debts b2 bal2).bal j2.Name := of_decide_eq_true hj2pos'
      have hextra2_nn : 0 ≤ min (minPhaseResult debts b2 bal2).available
          ((minPhaseResult debts b2 bal2).bal j2.Name) := le_min hav2.le hj2pos.le
      rw [applySurplus_bal_target debts b2 bal2 hv2 hinv2 hav2 hfind2]
      obtain ⟨j1, hfind1, hcase⟩ := find?_imp
        (l := debts)
        (p := fun d => decide (0 < (minPhaseResult debts b1 bal1).bal d.Name))
        (q := fun d => decide (0 < (minPhaseResult debts b2 bal2).bal d.Name))
        (by
          intro x hx hqx
          exact decide_eq_true (lt_of_lt_of_le (of_decide_eq_true hqx) (hdom' x hx)))
        hfind2
      by_cases hav1 : 0 < (minPhaseResult debts b1 bal1).available
      · rw [applySurplus_bal_target debts b1 bal1 hv1 hinv1 hav1 hfind1]
        have hj1 : j1 ∈ debts := List.mem_of_find?_eq_some hfind1
        rcases hcase with rfl | hq1f
        · intro d hd
          by_cases hdn : d.Name = j1.Name
          · rw [hdn, updateFn_same, updateFn_same]
            exact sub_min_mono (hdom' j1 hj1) havail12
          · rw [updateFn_other _ _ _ hdn, updateFn_other _ _ _ hdn]
            exact hdom' d hd
        · have hj1z : ¬ 0 < (minPhaseResult debts b2 bal2).bal j1.Name :=
            of_decide_eq_false hq1f
          have hne : j1.Name ≠ j2.Name := by
            intro h
            rw [h] at hj1z
            exact hj1z hj2pos
          intro d hd
          by_cases hdn2 : d.Name = j2.Name
          · rw [hdn2, updateFn_same, updateFn_other _ _ _ hne.symm]
            have h1 := hdom' j2 hj2
            linarith
          · by_cases hdn1 : d.Name = j1.Name
            · rw [updateFn_other _ _ _ hdn2, hdn1, updateFn_same]
              have hl : (minPhaseResult debts b2 bal2).bal j1.Name ≤ 0 := not_lt.mp hj1z
              have hr' := min_le_right (minPhaseResult debts b1 bal1).available
                ((minPhaseResult debts b1 bal1).bal j1.Name)
              linarith
            · rw [updateFn_other _ _ _ hdn2, updateFn_other _ _ _ hdn1]
              exact hdom' d hd
      · rw [applySurplus_noop_budget _ _ hav1]
        intro d hd
        by_cases hdn2 : d.Name = j2.Name
        · rw [hdn2, updateFn_same]
          have h1 := hdom' j2 hj2
          linarith
        · rw [updateFn_other _ _ _ hdn2]
          exact hdom' d hd

/-! ## Lemmas about the month loop -/

theorem planPaySum_cons (e : MonthlyPlan) (l : List MonthlyPlan) :
    planPaySum (e :: l) = paySum e.Payments + planPaySum l := by
  unfold planPaySum
  rw [List.map_cons, List.sum_cons]

theorem planPayCount_cons (e : MonthlyPlan) (l : List MonthlyPlan) :
    planPayCount (e :: l) = e.Payments.length + planPayCount l := by
  unfold planPayCount
  rw [List.map_cons, List.sum_cons]

/-- Unfolding equation for one iteration of the month loop. -/
theorem runMonths_succ (debts : List Debt) (budget : ℚ) (fuel month : ℕ)
    (bal : String → ℚ) (ti : ℚ) :
    runMonths debts budget (fuel + 1) month bal ti =
      if allPaid debts (simMonth debts budget bal).bal then
        ⟨[⟨month + 1, (simMonth debts budget bal).payments,
            roundTo2Decimals (simMonth debts budget bal).totalPaid⟩],
          ti + (simMonth debts budget bal).interest, month + 1,
          (simMonth debts budget bal).bal, false, false⟩
      else if MaxDebtPayoffMonths < month + 1 then
        ⟨[⟨month + 1, (simMonth debts budget bal).payments,
            roundTo2Decimals (simMonth debts budget bal).totalPaid⟩],
          ti + (simMonth debts budget bal).interest, month + 1,
          (simMonth debts budget bal).bal, true, false⟩
      else
        ⟨⟨month + 1, (simMonth debts budget bal).payments,
            roundTo2Decimals (simMonth debts budget bal).totalPaid⟩ ::
            (runMonths debts budget fuel (month + 1) (simMonth debts budget bal).bal
              (ti + (simMonth debts budget bal).interest)).plan,
          (runMonths debts budget fuel (month + 1) (simMonth debts budget bal).bal
            (ti + (simMonth debts budget bal).interest)).interest,
          (runMonths debts budget fuel (month + 1) (simMonth debts budget bal).bal
            (ti + (simMonth debts budget bal).interest)).month,
          (runMonths debts budget fuel (month + 1) (simMonth debts budget bal).bal
            (ti + (simMonth debts budget bal).interest)).bal,
          (runMonths debts budget fuel (month + 1) (simMonth debts budget bal).bal
            (ti + (simMonth debts budget bal).interest)).ceiling,
          (runMonths debts budget fuel (month + 1) (simMonth debts budget bal).bal
            (ti + (simMonth debts budget bal).interest)).fuelOut⟩ := rfl

theorem BalInv_of_simMonth {debts : List Debt} {budget : ℚ} {bal : String → ℚ}
    (hv : ValidDebts debts budget) (hinv : BalInv debts bal) :
    BalInv debts (simMonth debts budget bal).bal := by
  intro d hd
  obtain ⟨h1, _, _⟩ := simMonth_spec debts budget bal hv hinv
  exact ⟨(h1 d hd).1, le_trans (h1 d hd).2 (hinv d hd).2⟩

/-- The embedding fuel never runs out, and the final month count never
exceeds the safety ceiling plus one. -/
theorem runMonths_bound (debts : List Debt) (budget : ℚ) :
    ∀ (fuel month : ℕ) (bal : String → ℚ) (ti : ℚ),
      month + fuel = MaxDebtPayoffMonths + 1 → 1 ≤ fuel →
      (runMonths debts budget fuel month bal ti).fuelOut = false ∧
      (runMonths debts budget fuel month bal ti).month ≤ MaxDebtPayoffMonths + 1 := by
  intro fuel
  induction fuel with
  | zero =>
    intro month bal ti _ h1
    exact absurd h1 (by omega)
  | succ fuel ih =>
    intro month bal ti hfm _
    rw [runMonths_succ]
    by_cases hap : allPaid debts (simMonth debts budget bal).bal = true
    · rw [if_pos hap]
      refine ⟨rfl, ?_⟩
      show month + 1 ≤ MaxDebtPayoffMonths + 1
      omega
    · rw [if_neg hap]
      by_cases hcl : MaxDebtPayoffMonths < month + 1
      · rw [if_pos hcl]
        refine ⟨rfl, ?_⟩
        show month + 1 ≤ MaxDebtPayoffMonths + 1
        omega
      · rw [if_neg hcl]
        have hrec := ih (month + 1) (simMonth debts budget bal).bal
          (ti + (simMonth debts budget bal).interest) (by omega) (by omega)
        exact hrec

/-- Every run with at least one month of fuel advances the month counter
and accrues at least the first month's interest. -/
theorem runMonths_progress (debts : List Debt) (budget : ℚ) (hv : ValidDebts debts budget) :
    ∀ (fuel month : ℕ) (bal : String → ℚ) (ti : ℚ), 1 ≤ fuel → BalInv debts bal →
      month + 1 ≤ (runMonths debts budget fuel month bal ti).month ∧
      ti + monthInterest debts bal ≤ (runMonths debts budget fuel month bal ti).interest := by
  intro fuel
  induction fuel with
  | zero =>
    intro month bal ti h1 _
    exact absurd h1 (by omega)
  | succ fuel ih =>
    intro month bal ti _ hinv
    have hinv' := BalInv_of_simMonth hv hinv
    have hoi : (simMonth debts budget bal).interest = monthInterest debts bal := rfl
    rw [runMonths_succ]
    by_cases hap : allPaid debts (simMonth debts budget bal).bal = true
    · rw [if_pos hap]
      exact ⟨le_rfl, by show ti + monthInterest debts bal ≤ ti +
        (simMonth debts budget bal).interest; rw [hoi]⟩
    · rw [if_neg hap]
      by_cases hcl : MaxDebtPayoffMonths < month + 1
      · rw [if_pos hcl]
        exact ⟨le_rfl, by show ti + monthInterest debts bal ≤ ti +
          (simMonth debts budget bal).interest; rw [hoi]⟩
      · rw [if_neg hcl]
        rcases fuel with _ | f
        · exact ⟨le_rfl, by show ti + monthInterest debts bal ≤ ti +
            (simMonth debts budget bal).interest; rw [hoi]⟩
        · have hrec := ih (month + 1) (simMonth debts budget bal).bal
            (ti + (simMonth debts budget bal).interest) (by omega) hinv'
          have hmi' : 0 ≤ monthInterest debts (simMonth debts budget bal).bal :=
            monthInterest_nonneg hv.ratePos
          constructor
          · exact le_trans (by omega) hrec.1
          · rw [hoi] at hrec ⊢
            linarith [hrec.2]

/-- Accumulated conservation along the run: the invariant is preserved, the
sum of all recorded payments matches interest plus principal reduction up
to half-cent-per-entry rounding, and a run that neither ran out of fuel
nor hit the ceiling ended with every balance within tolerance. -/
theorem runMonths_conserve (debts : List Debt) (budget : ℚ) (hv : ValidDebts debts budget) :
    ∀ (fuel month : ℕ) (bal : String → ℚ) (ti : ℚ), BalInv debts bal →
      BalInv debts (runMonths debts budget fuel month bal ti).bal ∧
      ((runMonths debts budget fuel month bal ti).fuelOut = false →
        |planPaySum (runMonths debts budget fuel month bal ti).plan -
          (((runMonths debts budget fuel month bal ti).interest - ti) +
            (balSum debts bal - balSum debts (runMonths debts budget fuel month bal ti).bal))| ≤
          ((planPayCount (runMonths debts budget fuel month bal ti).plan : ℚ)) / 100 ∧
        ((runMonths debts budget fuel month bal ti).ceiling = false →
          allPaid debts (runMonths debts budget fuel month bal ti).bal = true)) := by
  intro fuel
  induction fuel with
  | zero =>
    intro month bal ti hinv
    exact ⟨hinv, fun hfo => by simp [runMonths] at hfo⟩
  | succ fuel ih =>
    intro month bal ti hinv
    obtain ⟨hs1, hs2, hs3⟩ := simMonth_spec debts budget bal hv hinv
    have hinv' := BalInv_of_simMonth hv hinv
    have hoi : (simMonth debts budget bal).interest = monthInterest debts bal := rfl
    have hplan1 : planPaySum [(⟨month + 1, (simMonth debts budget bal).payments,
        roundTo2Decimals (simMonth debts budget bal).totalPaid⟩ : MonthlyPlan)] =
        paySum (simMonth debts budget bal).payments := by
      simp [planPaySum]
    have hcount1 : planPayCount [(⟨month + 1, (simMonth debts budget bal).payments,
        roundTo2Decimals (simMonth debts budget bal).totalPaid⟩ : MonthlyPlan)] =
        (simMonth debts budget bal).payments.length := by
      simp [planPayCount]
    have hbound1 : |paySum (simMonth debts budget bal).payments -
        ((ti + (simMonth debts budget bal).interest - ti) +
          (balSum debts bal - balSum debts (simMonth debts budget bal).bal))| ≤
        (((simMonth debts budget bal).payments.length : ℚ)) / 100 := by
      rw [show (ti + (simMonth debts budget bal).interest - ti) +
          (balSum debts bal - balSum debts (simMonth debts budget bal).bal) =
          monthInterest debts bal +
            (balSum debts bal - balSum debts (simMonth debts budget bal).bal) from by
        rw [hoi]; ring]
      rw [← hs2]
      exact hs3
    rw [runMonths_succ]
    by_cases hap : allPaid debts (simMonth debts budget bal).bal = true
    · rw [if_pos hap]
      exact ⟨hinv', fun _ => ⟨by rw [hplan1, hcount1]; exact hbound1, fun _ => hap⟩⟩
    · rw [if_neg hap]
      by_cases hcl : MaxDebtPayoffMonths < month + 1
      · rw [if_pos hcl]
        exact ⟨hinv', fun _ => ⟨by rw [hplan1, hcount1]; exact hbound1,
          fun hc => by simp at hc⟩⟩
      · rw [if_neg hcl]
        have ihr := ih (month + 1) (simMonth debts budget bal).bal
          (ti + (simMonth debts budget bal).interest) hinv'
        refine ⟨ihr.1, fun hfo => ?_⟩
        obtain ⟨ihb, ihc⟩ := ihr.2 hfo
        refine ⟨?_, ihc⟩
        rw [planPaySum_cons, planPayCount_cons]
        have hsplit2 :
            paySum (simMonth debts budget bal).payments +
              planPaySum (runMonths debts budget fuel (month + 1)
                (simMonth debts budget bal).bal
                (ti + (simMonth debts budget bal).interest)).plan -
            (((runMonths debts budget fuel (month + 1) (simMonth debts budget bal).bal
                (ti + (simMonth debts budget bal).interest)).interest - ti) +
              (balSum debts bal -
                balSum debts (runMonths debts budget fuel (month + 1)
                  (simMonth debts budget bal).bal
                  (ti + (simMonth debts budget bal).interest)).bal)) =
            (paySum (simMonth debts budget bal).payments -
              ((ti + (simMonth debts budget bal).interest - ti) +
                (balSum debts bal - balSum debts (simMonth debts budget bal).bal))) +
            (planPaySum (runMonths debts budget fuel (month + 1)
                (simMonth debts budget bal).bal
                (ti + (simMonth debts budget bal).interest)).plan -
              (((runMonths debts budget fuel (month + 1) (simMonth debts budget bal).bal
                  (ti + (simMonth debts budget bal).interest)).interest -
                  (ti + (simMonth debts budget bal).interest)) +
                (balSum debts (simMonth debts budget bal).bal -
                  balSum debts (runMonths debts budget fuel (month + 1)
                    (simMonth debts budget bal).bal
                    (ti + (simMonth debts budget bal).interest)).bal))) := by
          ring
        rw [hsplit2]
        calc |_ + _| ≤ _ + _ := abs_add _ _
          _ ≤ (((simMonth debts budget bal).payments.length : ℚ)) / 100 +
              ((planPayCount (runMonths debts budget fuel (month + 1)
                (simMonth debts budget bal).bal
                (ti + (simMonth debts budget bal).interest)).plan : ℚ)) / 100 :=
            add_le_add hbound1 ihb
          _ = (((simMonth debts budget bal).payments.length +
              planPayCount (runMonths debts budget fuel (month + 1)
                (simMonth debts budget bal).bal
                (ti + (simMonth debts budget bal).interest)).plan : ℕ) : ℚ) / 100 := by
            push_cast
            ring

/-- Run-level monotonicity: a larger budget, pointwise smaller balances and
an accrued-interest head start can only stop sooner and accrue less. -/
theorem runMonths_mono (debts : List Debt) (b1 b2 : ℚ) (hv1 : ValidDebts debts b1)
    (hb : b1 ≤ b2) :
    ∀ (fuel month : ℕ) (bal1 bal2 : String → ℚ) (ti1 ti2 : ℚ),
      BalInv debts bal1 → BalInv debts bal2 →
      (∀ d ∈ debts, bal2 d.Name ≤ bal1 d.Name) → ti2 ≤ ti1 →
      (runMonths debts b2 fuel month bal2 ti2).month ≤
        (runMonths debts b1 fuel month bal1 ti1).month ∧
      (runMonths debts b2 fuel month bal2 ti2).interest ≤
        (runMonths debts b1 fuel month bal1 ti1).interest := by
  have hv2 : ValidDebts debts b2 := hv1.relax hb
  intro fuel
  induction fuel with
  | zero =>
    intro month bal1 bal2 ti1 ti2 _ _ _ hti
    exact ⟨le_rfl, hti⟩
  | succ fuel ih =>
    intro month bal1 bal2 ti1 ti2 hinv1 hinv2 hdom hti
    have hdomo := simMonth_mono debts b1 b2 bal1 bal2 hv1 hb hinv1 hinv2 hdom
    have hinv1' := BalInv_of_simMonth hv1 hinv1
    have hinv2' := BalInv_of_simMonth hv2 hinv2
    have hmi : monthInterest debts bal2 ≤ monthInterest debts bal1 :=
      monthInterest_mono hv1.ratePos hdom
    have hoi1 : (simMonth debts b1 bal1).interest = monthInterest debts bal1 := rfl
    have hoi2 : (simMonth debts b2 bal2).interest = monthInterest debts bal2 := rfl
    by_cases hap2 : allPaid debts (simMonth debts b2 bal2).bal = true
    · rw [runMonths_succ debts b2 fuel month bal2 ti2, if_pos hap2]
      have hprog := runMonths_progress debts b1 hv1 (fuel + 1) month bal1 ti1 (by omega) hinv1
      refine ⟨hprog.1, ?_⟩
      rw [hoi2]
      calc ti2 + monthInterest debts bal2 ≤ ti1 + monthInterest debts bal1 := by linarith
        _ ≤ (runMonths debts b1 (fuel + 1) month bal1 ti1).interest := hprog.2
    · have hap1 : ¬ allPaid debts (simMonth debts b1 bal1).bal = true :=
        fun h => hap2 (allPaid_mono hdomo h)
      rw [runMonths_succ debts b2 fuel month bal2 ti2,
        runMonths_succ debts b1 fuel month bal1 ti1, if_neg hap2, if_neg hap1]
      by_cases hcl : MaxDebtPayoffMonths < month + 1
      · rw [if_pos hcl, if_pos hcl]
        refine ⟨le_rfl, ?_⟩
        show ti2 + (simMonth debts b2 bal2).interest ≤ ti1 + (simMonth debts b1 bal1).interest
        rw [hoi1, hoi2]
        linarith
      · rw [if_neg hcl, if_neg hcl]
        exact ih (month + 1) (simMonth debts b1 bal1).bal (simMonth debts b2 bal2).bal
          (ti1 + (simMonth debts b1 bal1).interest) (ti2 + (simMonth debts b2 bal2).interest)
          hinv1' hinv2' hdomo (by rw [hoi1, hoi2]; linarith)

/-! ## Validation bridge -/

theorem checkNames_ok : ∀ (ds : List Debt) (seen : List String), checkNames ds seen = none →
    (ds.map (·.Name)).Nodup ∧ (∀ d ∈ ds, d.Name ≠ "") ∧ ∀ d ∈ ds, d.Name ∉ seen := by
  intro ds
  induction ds with
  | nil => intro seen _; exact ⟨List.nodup_nil, fun d hd => absurd hd (List.not_mem_nil d),
      fun d hd => absurd hd (List.not_mem_nil d)⟩
  | cons d ds ih =>
    intro seen h
    unfold checkNames at h
    split_ifs at h with h1 h2
    obtain ⟨hnd, hne, hnotin⟩ := ih (d.Name :: seen) h
    refine ⟨?_, ?_, ?_⟩
    · rw [List.map_cons, List.nodup_cons]
      refine ⟨?_, hnd⟩
      intro hc
      obtain ⟨d', hd', hname⟩ := List.mem_map.mp hc
      exact (hnotin d' hd') (hname ▸ List.mem_cons_self d.Name seen)
    · intro d' hd'
      rcases List.mem_cons.mp hd' with rfl | hd''
      · exact h1
      · exact hne d' hd''
    · intro d' hd'
      rcases List.mem_cons.mp hd' with rfl | hd''
      · exact h2
      · exact fun hc => (hnotin d' hd'') (List.mem_cons_of_mem d.Name hc)

theorem checkNames_complete : ∀ (ds : List Debt) (seen : List String),
    (∀ d ∈ ds, d.Name ≠ "") → (ds.map (·.Name)).Nodup → (∀ d ∈ ds, d.Name ∉ seen) →
    checkNames ds seen = none := by
  intro ds
  induction ds with
  | nil => intro seen _ _ _; rfl
  | cons d ds ih =>
    intro seen hne hnd hnotin
    unfold checkNames
    rw [if_neg (hne d (List.mem_cons_self d ds)), if_neg (hnotin d (List.mem_cons_self d ds))]
    refine ih (d.Name :: seen) (fun d' hd' => hne d' (List.mem_cons_of_mem d hd'))
      (by rw [List.map_cons, List.nodup_cons] at hnd; exact hnd.2) ?_
    intro d' hd' hc
    rcases List.mem_cons.mp hc with hname | hc'
    · exact (name_notMem_of_nodup hnd d' hd') hname
    · exact (hnotin d' (List.mem_cons_of_mem d hd')) hc'

theorem checkDebtsLoop_ok : ∀ (ds : List Debt) (acc t : ℚ), checkDebtsLoop ds acc = .ok t →
    (∀ d ∈ ds, 0 < d.Amount ∧ d.Amount ≤ MaxDebtAmount ∧ 0 ≤ d.InterestRate ∧
      d.InterestRate ≤ MaxInterestRate ∧ 0 < d.MinimumPayment ∧
      d.Amount * (d.InterestRate / 100) / 12 ≤ d.MinimumPayment) ∧
    t = acc + (ds.map (·.MinimumPayment)).sum := by
  intro ds
  induction ds with
  | nil =>
    intro acc t h
    refine ⟨fun d hd => absurd hd (List.not_mem_nil d), ?_⟩
    unfold checkDebtsLoop at h
    injection h with h
    rw [← h]
    simp
  | cons d ds ih =>
    intro acc t h
    unfold checkDebtsLoop at h
    split_ifs at h with h1 h2 h3 h4 h5 h6
    obtain ⟨hall, hsum⟩ := ih (acc + d.MinimumPayment) t h
    refine ⟨?_, ?_⟩
    · intro d' hd'
      rcases List.mem_cons.mp hd' with rfl | hd''
      · exact ⟨not_le.mp h1, not_lt.mp h2, not_lt.mp h3, not_lt.mp h4, not_le.mp h5,
          not_lt.mp h6⟩
      · exact hall d' hd''
    · rw [hsum, List.map_cons, List.sum_cons]
      ring

theorem checkDebtsLoop_complete : ∀ (ds : List Debt) (acc : ℚ),
    (∀ d ∈ ds, 0 < d.Amount ∧ d.Amount ≤ MaxDebtAmount ∧ 0 ≤ d.InterestRate ∧
      d.InterestRate ≤ MaxInterestRate ∧ 0 < d.MinimumPayment) →
    (∀ d ∈ ds, d.Amount * (d.InterestRate / 100) / 12 ≤ d.MinimumPayment) →
    checkDebtsLoop ds acc = .ok (acc + (ds.map (·.MinimumPayment)).sum) := by
  intro ds
  induction ds with
  | nil => intro acc _ _; unfold checkDebtsLoop; rw [show (([] : List Debt).map
      (·.MinimumPayment)).sum = 0 from rfl, add_zero]
  | cons d ds ih =>
    intro acc hstr hcov
    obtain ⟨ha1, ha2, ha3, ha4, ha5⟩ := hstr d (List.mem_cons_self d ds)
    unfold checkDebtsLoop
    rw [if_neg (not_le.mpr ha1), if_neg (not_lt.mpr ha2), if_neg (not_lt.mpr ha3),
      if_neg (not_lt.mpr ha4), if_neg (not_le.mpr ha5),
      if_neg (not_lt.mpr (hcov d (List.mem_cons_self d ds))),
      ih (acc + d.MinimumPayment) (fun d' hd' => hstr d' (List.mem_cons_of_mem d hd'))
        (fun d' hd' => hcov d' (List.mem_cons_of_mem d hd'))]
    rw [List.map_cons, List.sum_cons]
    congr 1
    ring

theorem checkDebtsLoop_offender : ∀ (ds : List Debt) (acc : ℚ),
    (∀ d ∈ ds, 0 < d.Amount ∧ d.Amount ≤ MaxDebtAmount ∧ 0 ≤ d.InterestRate ∧
      d.InterestRate ≤ MaxInterestRate ∧ 0 < d.MinimumPayment) →
    (∃ d ∈ ds, d.MinimumPayment < d.Amount * (d.InterestRate / 100) / 12) →
    ∃ n, checkDebtsLoop ds acc = .error (.minimumBelowInterest n) := by
  intro ds
  induction ds with
  | nil => intro acc _ h; obtain ⟨d, hd, _⟩ := h; exact absurd hd (List.not_mem_nil d)
  | cons d ds ih =>
    intro acc hstr hex
    obtain ⟨ha1, ha2, ha3, ha4, ha5⟩ := hstr d (List.mem_cons_self d ds)
    unfold checkDebtsLoop
    rw [if_neg (not_le.mpr ha1), if_neg (not_lt.mpr ha2), if_neg (not_lt.mpr ha3),
      if_neg (not_lt.mpr ha4), if_neg (not_le.mpr ha5)]
    by_cases hc : d.MinimumPayment < d.Amount * (d.InterestRate / 100) / 12
    · rw [if_pos hc]
      exact ⟨d.Name, rfl⟩
    · rw [if_neg hc]
      obtain ⟨d', hd', hoff⟩ := hex
      rcases List.mem_cons.mp hd' with rfl | hd''
      · exact absurd hoff hc
      · exact ih (acc + d.MinimumPayment)
          (fun x hx => hstr x (List.mem_cons_of_mem d hx)) ⟨d', hd'', hoff⟩

/-- Everything validation guarantees when it accepts an input. -/
theorem validateDebtExit_none {input : DebtExitInput} (hv : validateDebtExit input = none) :
    0 < input.AvailableMonthlyPayment ∧
    (input.Debts.map (·.Name)).Nodup ∧
    (∀ d ∈ input.Debts, 0 < d.Amount ∧ d.Amount ≤ MaxDebtAmount ∧ 0 ≤ d.InterestRate ∧
      d.InterestRate ≤ MaxInterestRate ∧ 0 < d.MinimumPayment ∧
      d.Amount * (d.InterestRate / 100) / 12 ≤ d.MinimumPayment) ∧
    (input.Debts.map (·.MinimumPayment)).sum ≤ input.AvailableMonthlyPayment := by
  unfold validateDebtExit at hv
  split_ifs at hv with h1 h2 h3 h4
  · cases hnm : checkNames input.Debts [] with
    | some e => rw [hnm] at hv; simp at hv
    | none =>
      rw [hnm] at hv
      dsimp only at hv
      cases hcd : checkDebtsLoop input.Debts 0 with
      | error e => rw [hcd] at hv; simp at hv
      | ok t =>
        rw [hcd] at hv
        dsimp only at hv
        split_ifs at hv with h5
        obtain ⟨hall, hsum⟩ := checkDebtsLoop_ok input.Debts 0 t hcd
        obtain ⟨hnd, _, _⟩ := checkNames_ok input.Debts [] hnm
        refine ⟨not_le.mp h3, hnd, hall, ?_⟩
        rw [hsum, zero_add] at h5
        exact not_lt.mp h5
  · cases hnm : checkNames input.Debts [] with
    | some e => rw [hnm] at hv; simp at hv
    | none => rw [hnm] at hv; simp at hv

theorem sortDebts_perm (debts : List Debt) (strategy : String) :
    (sortDebts debts strategy).Perm debts := by
  unfold sortDebts
  split
  · exact List.perm_insertionSort _ _
  · exact List.perm_insertionSort _ _

theorem mul_monthlyRate (d : Debt) :
    d.Amount * (d.InterestRate / 100) / 12 = d.Amount * monthlyRate d := by
  unfold monthlyRate
  ring

/-- The sorted working copy of an accepted input satisfies the run
invariants. -/
theorem validate_run_facts {input : DebtExitInput} (hv : validateDebtExit input = none)
    (strategy : String) :
    ValidDebts (sortDebts input.Debts strategy) input.AvailableMonthlyPayment ∧
    BalInv (sortDebts input.Debts strategy) (initBalances (sortDebts input.Debts strategy)) ∧
    ((sortDebts input.Debts strategy).map (·.Amount)).sum =
      (input.Debts.map (·.Amount)).sum ∧
    (sortDebts input.Debts strategy).length = input.Debts.length := by
  obtain ⟨hbud, hnd, hall, hsum⟩ := validateDebtExit_none hv
  have hperm := sortDebts_perm input.Debts strategy
  have hmem : ∀ d ∈ sortDebts input.Debts strategy, d ∈ input.Debts :=
    fun d hd => hperm.mem_iff.mp hd
  have hnd' : ((sortDebts input.Debts strategy).map (·.Name)).Nodup :=
    (hperm.map (·.Name)).nodup_iff.mpr hnd
  have hv' : ValidDebts (sortDebts input.Debts strategy) input.AvailableMonthlyPayment := by
    refine ⟨fun d hd => (hall d (hmem d hd)).1,
      fun d hd => (hall d (hmem d hd)).2.2.1,
      fun d hd => (hall d (hmem d hd)).2.2.2.2.1,
      fun d hd => ?_, ?_, hnd'⟩
    · rw [← mul_monthlyRate]
      exact (hall d (hmem d hd)).2.2.2.2.2
    · rw [(hperm.map (·.MinimumPayment)).sum_eq]
      exact hsum
  refine ⟨hv', ?_, (hperm.map (·.Amount)).sum_eq, hperm.length_eq⟩
  intro d hd
  rw [initBalances_name hnd' hd]
  exact ⟨(hall d (hmem d hd)).1.le, le_rfl⟩

/-! ## Small final helpers -/

theorem sum_map_const {α : Type} (l : List α) (c : ℚ) :
    (l.map (fun _ => c)).sum = (l.length : ℚ) * c := by
  induction l with
  | nil => simp
  | cons a l ih =>
    rw [List.map_cons, List.sum_cons, ih, List.length_cons]
    push_cast
    ring

theorem balSum_init (debts : List Debt) (hnd : (debts.map (·.Name)).Nodup) :
    balSum debts (initBalances debts) = (debts.map (·.Amount)).sum := by
  unfold balSum
  exact congrArg List.sum (List.map_congr_left (fun d hd => initBalances_name hnd hd))

theorem roundTo2Decimals_zero : roundTo2Decimals 0 = 0 := by
  unfold roundTo2Decimals goRound
  norm_num

/-! ## Claim theorems -/

/-- C1: for every input accepted by CalculateDebtExitPlan's validation and
each strategy, when the simulation terminates by full payoff (not by the
month ceiling), the sum of all recorded Payment amounts across all
MonthlyPlan entries equals TotalInterestPaid plus TotalDebt within
rounding tolerance: one half-cent per recorded entry plus one half-cent
for each of the two rounded totals plus the payoff tolerance per debt,
i.e. within (numPayments + #debts + 1) cents. -/
theorem c1_payment_sum_conservation (input : DebtExitInput) (strategy : String)
    (hv : validateDebtExit input = none)
    (hs : strategy = "snowball" ∨ strategy = "avalanche")
    (hpayoff : hitCeiling input strategy = false) :
    |recPaymentsSum (calculateStrategy input strategy) -
      ((calculateStrategy input strategy).TotalInterestPaid +
        (calculateStrategy input strategy).TotalDebt)| ≤
      ((numPayments (calculateStrategy input strategy) : ℚ) +
        (input.Debts.length : ℚ) + 1) / 100 := by
  obtain ⟨hvd, hinv, hamt, hlen⟩ := validate_run_facts hv strategy
  have hrun := runMonths_conserve (sortDebts input.Debts strategy)
    input.AvailableMonthlyPayment hvd (MaxDebtPayoffMonths + 1) 0
    (initBalances (sortDebts input.Debts strategy)) 0 hinv
  have hfuel := runMonths_bound (sortDebts input.Debts strategy)
    input.AvailableMonthlyPayment (MaxDebtPayoffMonths + 1) 0
    (initBalances (sortDebts input.Debts strategy)) 0 (by omega) (by omega)
  have hfo : (runFor input strategy).fuelOut = false := hfuel.1
  obtain ⟨hacc0, hallp⟩ := hrun.2 hfo
  have hacc : |planPaySum (runFor input strategy).plan -
      (((runFor input strategy).interest - 0) +
        (balSum (sortDebts input.Debts strategy)
            (initBalances (sortDebts input.Debts strategy)) -
          balSum (sortDebts input.Debts strategy) (runFor input strategy).bal))| ≤
      ((planPayCount (runFor input strategy).plan : ℚ)) / 100 := hacc0
  have hpaid : allPaid (sortDebts input.Debts strategy) (runFor input strategy).bal = true :=
    hallp hpayoff
  have hbinv : BalInv (sortDebts input.Debts strategy) (runFor input strategy).bal := hrun.1
  have hf1 : balSum (sortDebts input.Debts strategy) (runFor input strategy).bal ≤
      ((input.Debts.length : ℚ)) / 100 := by
    have hcast : ((sortDebts input.Debts strategy).length : ℚ) = (input.Debts.length : ℚ) := by
      exact_mod_cast congrArg Nat.cast hlen
    calc balSum (sortDebts input.Debts strategy) (runFor input strategy).bal
        ≤ ((sortDebts input.Debts strategy).map (fun _ => (1:ℚ)/100)).sum := by
          unfold balSum
          apply List.sum_le_sum
          intro d hd
          have := of_decide_eq_true ((List.all_eq_true.mp hpaid) d hd)
          exact this
      _ = ((sortDebts input.Debts strategy).length : ℚ) * (1/100) := sum_map_const _ _
      _ = ((input.Debts.length : ℚ)) / 100 := by rw [hcast]; ring
  have hf2 : 0 ≤ balSum (sortDebts input.Debts strategy) (runFor input strategy).bal := by
    unfold balSum
    apply List.sum_nonneg
    intro x hx
    obtain ⟨d, hd, rfl⟩ := List.mem_map.mp hx
    exact (hbinv d hd).1
  have hinit : balSum (sortDebts input.Debts strategy)
      (initBalances (sortDebts input.Debts strategy)) = (input.Debts.map (·.Amount)).sum := by
    rw [balSum_init _ hvd.namesNodup, hamt]
  rw [sub_zero, hinit] at hacc
  have hri := abs_le.mp (abs_roundTo2Decimals_sub (runFor input strategy).interest)
  have hrd := abs_le.mp (abs_roundTo2Decimals_sub ((input.Debts.map (·.Amount)).sum))
  have hacc' := abs_le.mp hacc
  have hSeq : recPaymentsSum (calculateStrategy input strategy) =
      planPaySum (runFor input strategy).plan := rfl
  have hPeq : (numPayments (calculateStrategy input strategy) : ℚ) =
      (planPayCount (runFor input strategy).plan : ℚ) := rfl
  have hTIeq : (calculateStrategy input strategy).TotalInterestPaid =
      roundTo2Decimals (runFor input strategy).interest := rfl
  have hTDeq : (calculateStrategy input strategy).TotalDebt =
      roundTo2Decimals ((input.Debts.map (·.Amount)).sum) := rfl
  rw [hSeq, hPeq, hTIeq, hTDeq, abs_le]
  constructor <;> linarith

/-- C7: for every accepted input and any strategy, increasing the
available monthly payment while holding the debts fixed never increases
MonthsToPayoff and never increases TotalInterestPaid. -/
theorem c7_budget_monotone (input : DebtExitInput) (b2 : ℚ) (strategy : String)
    (hv : validateDebtExit input = none)
    (hb : input.AvailableMonthlyPayment ≤ b2) :
    (calculateStrategy { input with AvailableMonthlyPayment := b2 } strategy).MonthsToPayoff ≤
      (calculateStrategy input strategy).MonthsToPayoff ∧
    (calculateStrategy { input with AvailableMonthlyPayment := b2 } strategy).TotalInterestPaid ≤
      (calculateStrategy input strategy).TotalInterestPaid := by
  obtain ⟨hvd, hinv, _, _⟩ := validate_run_facts hv strategy
  have h := runMonths_mono (sortDebts input.Debts strategy) input.AvailableMonthlyPayment b2
    hvd hb (MaxDebtPayoffMonths + 1) 0
    (initBalances (sortDebts input.Debts strategy)) (initBalances (sortDebts input.Debts strategy))
    0 0 hinv hinv (fun _ _ => le_rfl) le_rfl
  exact ⟨h.1, roundTo2Decimals_mono h.2⟩

/-- C2: the priority order is computed once per run (ascending Amount for
snowball, descending InterestRate for avalanche), and in every simulated
month in which budget remains after the minimum-payment phase and some
debt is still active, the entire surplus goes to exactly the first active
debt in that fixed order, capped at its remaining balance, by updating its
existing MonthlyPayment entry in place (no entry is appended and no other
debt or entry is touched). -/
theorem c2_surplus_single_target (input : DebtExitInput) (strategy : String)
    (hv : validateDebtExit input = none) :
    ((sortDebts input.Debts "snowball").Perm input.Debts ∧
      List.Sorted (fun a b : Debt => a.Amount ≤ b.Amount)
        (sortDebts input.Debts "snowball")) ∧
    ((sortDebts input.Debts "avalanche").Perm input.Debts ∧
      List.Sorted (fun a b : Debt => b.InterestRate ≤ a.InterestRate)
        (sortDebts input.Debts "avalanche")) ∧
    ∀ (bal : String → ℚ) (st : MinState),
      BalInv (sortDebts input.Debts strategy) bal →
      st = minPhaseResult (sortDebts input.Debts strategy)
        input.AvailableMonthlyPayment bal →
      0 < st.available →
      (∃ d ∈ sortDebts input.Debts strategy, 0 < st.bal d.Name) →
      ∃ j pre e post,
        (sortDebts input.Debts strategy).find?
          (fun d => decide (0 < st.bal d.Name)) = some j ∧
        st.payments = pre ++ e :: post ∧ e.DebtName = j.Name ∧
        (∀ q ∈ pre, q.DebtName ≠ j.Name) ∧
        applySurplus (sortDebts input.Debts strategy) st =
          { bal := updateFn st.bal j.Name
              (st.bal j.Name - min st.available (st.bal j.Name))
            available := st.available - min st.available (st.bal j.Name)
            totalPaid := st.totalPaid + min st.available (st.bal j.Name)
            payments := pre ++
              { e with
                Payment := roundTo2Decimals (e.Payment + min st.available (st.bal j.Name))
                RemainingBalance :=
                  roundTo2Decimals (st.bal j.Name - min st.available (st.bal j.Name)) } ::
              post } := by
  obtain ⟨hvd, _, _, _⟩ := validate_run_facts hv strategy
  refine ⟨⟨sortDebts_perm input.Debts "snowball", ?_⟩,
    ⟨sortDebts_perm input.Debts "avalanche", ?_⟩, ?_⟩
  · haveI h1 : IsTotal Debt (fun a b => a.Amount ≤ b.Amount) := ⟨fun a b => le_total _ _⟩
    haveI h2 : IsTrans Debt (fun a b => a.Amount ≤ b.Amount) :=
      ⟨fun _ _ _ hab hbc => le_trans hab hbc⟩
    have : sortDebts input.Debts "snowball" =
        List.insertionSort (fun a b : Debt => a.Amount ≤ b.Amount) input.Debts := by
      unfold sortDebts
      rw [if_pos rfl]
    rw [this]
    exact List.sorted_insertionSort _ _
  · haveI h1 : IsTotal Debt (fun a b => b.InterestRate ≤ a.InterestRate) :=
      ⟨fun a b => le_total _ _⟩
    haveI h2 : IsTrans Debt (fun a b => b.InterestRate ≤ a.InterestRate) :=
      ⟨fun _ _ _ hab hbc => le_trans hbc hab⟩
    have : sortDebts input.Debts "avalanche" =
        List.insertionSort (fun a b : Debt => b.InterestRate ≤ a.InterestRate) input.Debts := by
      unfold sortDebts
      rw [if_neg (by decide : ¬ ("avalanche" : String) = "snowball")]
    rw [this]
    exact List.sorted_insertionSort _ _
  · intro bal st hinv hst hpos hex
    subst hst
    cases hfind : (sortDebts input.Debts strategy).find?
        (fun d => decide (0 < (minPhaseResult (sortDebts input.Debts strategy)
          input.AvailableMonthlyPayment bal).bal d.Name)) with
    | none =>
      obtain ⟨d0, hd0, hd0pos⟩ := hex
      have := List.find?_eq_none.mp hfind d0 hd0
      exact absurd (decide_eq_true hd0pos) this
    | some j =>
      have hj : j ∈ sortDebts input.Debts strategy := List.mem_of_find?_eq_some hfind
      have hjpos' := @List.find?_some Debt
        (fun d => decide (0 < (minPhaseResult (sortDebts input.Debts strategy)
          input.AvailableMonthlyPayment bal).bal d.Name)) j
        (sortDebts input.Debts strategy) hfind
      have hjpos : 0 < (minPhaseResult (sortDebts input.Debts strategy)
          input.AvailableMonthlyPayment bal).bal j.Name := of_decide_eq_true hjpos'
      obtain ⟨pre, e, post, hsplit, he, hpre⟩ := surplus_entry_exists
        (sortDebts input.Debts strategy) input.AvailableMonthlyPayment bal hvd hinv hj hjpos
      exact ⟨j, pre, e, post, rfl, hsplit, he, hpre,
        applySurplus_target (sortDebts input.Debts strategy)
          (minPhaseResult (sortDebts input.Debts strategy)
            input.AvailableMonthlyPayment bal) j hpos hfind pre e post hsplit he hpre⟩

/-- C5: once the structural validation passes, CalculateDebtExitPlan
returns an InfeasibleBudget-kind error — before any simulation, as a bare
error with no result — exactly when the minimum payments sum to more than
the budget or some debt's minimum payment is strictly below its first
month's interest; the boundary equalities are accepted. -/
theorem c5_infeasible_budget (input : DebtExitInput) (hok : structuralOK input) :
    ((∃ e, validateDebtExit input = some e ∧ e.isInfeasible = true) ↔
      ((∃ d ∈ input.Debts, d.MinimumPayment < d.Amount * (d.InterestRate / 100) / 12) ∨
        input.AvailableMonthlyPayment < (input.Debts.map (·.MinimumPayment)).sum)) ∧
    (∀ e, validateDebtExit input = some e → CalculateDebtExitPlan input = .error e) := by
  obtain ⟨hne, hlen, hbud, hnm, hnd, hstrat, hall⟩ := hok
  have hnames : checkNames input.Debts [] = none :=
    checkNames_complete input.Debts [] hnm hnd (fun d _ => List.not_mem_nil _)
  have hfive : ∀ d ∈ input.Debts, 0 < d.Amount ∧ d.Amount ≤ MaxDebtAmount ∧
      0 ≤ d.InterestRate ∧ d.InterestRate ≤ MaxInterestRate ∧ 0 < d.MinimumPayment :=
    fun d hd => hall d hd
  have hplan : ∀ e, validateDebtExit input = some e →
      CalculateDebtExitPlan input = .error e := by
    intro e he
    unfold CalculateDebtExitPlan
    rw [he]
  by_cases hoff : ∃ d ∈ input.Debts, d.MinimumPayment < d.Amount * (d.InterestRate / 100) / 12
  · obtain ⟨n, hcd⟩ := checkDebtsLoop_offender input.Debts 0 hfive hoff
    have hval : validateDebtExit input = some (.minimumBelowInterest n) := by
      unfold validateDebtExit
      rw [if_neg (fun h => hne (List.length_eq_zero.mp h)), if_neg (not_lt.mpr hlen),
        if_neg (not_le.mpr hbud), hnames]
      dsimp only
      rw [if_pos hstrat, hcd]
    refine ⟨⟨fun _ => Or.inl hoff, fun _ => ⟨.minimumBelowInterest n, hval, rfl⟩⟩, hplan⟩
  · have hcov : ∀ d ∈ input.Debts, d.Amount * (d.InterestRate / 100) / 12 ≤ d.MinimumPayment := by
      intro d hd
      by_contra hc
      exact hoff ⟨d, hd, not_le.mp hc⟩
    have hcd := checkDebtsLoop_complete input.Debts 0 hfive hcov
    by_cases hsum : input.AvailableMonthlyPayment < 0 + (input.Debts.map (·.MinimumPayment)).sum
    · have hval : validateDebtExit input = some .insufficientBudget := by
        unfold validateDebtExit
        rw [if_neg (fun h => hne (List.length_eq_zero.mp h)), if_neg (not_lt.mpr hlen),
          if_neg (not_le.mpr hbud), hnames]
        dsimp only
        rw [if_pos hstrat, hcd]
        dsimp only
        rw [if_pos hsum]
      refine ⟨⟨fun _ => Or.inr (by rw [zero_add] at hsum; exact hsum),
        fun _ => ⟨.insufficientBudget, hval, rfl⟩⟩, hplan⟩
    · have hval : validateDebtExit input = none := by
        unfold validateDebtExit
        rw [if_neg (fun h => hne (List.length_eq_zero.mp h)), if_neg (not_lt.mpr hlen),
          if_neg (not_le.mpr hbud), hnames]
        dsimp only
        rw [if_pos hstrat, hcd]
        dsimp only
        rw [if_neg hsum]
      refine ⟨⟨?_, ?_⟩, hplan⟩
      · rintro ⟨e, he, _⟩
        rw [hval] at he
        cases he
      · intro h
        rcases h with h | h
        · exact absurd h hoff
        · exact absurd (by rw [zero_add]; exact h) hsum

/-- C9: for every input accepted by CalculateLoan's validation with zero
interest rate, the result is MonthlyPayment = Amount/TermMonths rounded to
2 decimals, TotalPayment = (Amount/TermMonths)*TermMonths rounded, and
TotalInterest = TotalPayment - Amount rounded, which is exactly 0. -/
theorem c9_zero_rate_loan (A : ℚ) (n : ℤ) (h1 : 0 < A) (h2 : A ≤ MaxLoanAmount)
    (h3 : 0 < n) (h4 : n ≤ MaxTermMonths) :
    CalculateLoan ⟨A, 0, n⟩ = .ok ⟨roundTo2Decimals (A / (n : ℚ)),
      roundTo2Decimals ((A / (n : ℚ)) * (n : ℚ)),
      roundTo2Decimals ((A / (n : ℚ)) * (n : ℚ) - A)⟩ ∧
    roundTo2Decimals ((A / (n : ℚ)) * (n : ℚ) - A) = 0 := by
  have hn : ((n : ℚ)) ≠ 0 := Int.cast_ne_zero.mpr (by omega)
  have hAn : (A / (n : ℚ)) * (n : ℚ) = A := div_mul_cancel₀ A hn
  constructor
  · unfold CalculateLoan
    rw [if_neg (not_le.mpr h1), if_neg (not_lt.mpr h2),
      if_neg (not_lt.mpr le_rfl),
      if_neg (not_lt.mpr (show (0:ℚ) ≤ MaxInterestRate by unfold MaxInterestRate; norm_num)),
      if_neg (not_le.mpr h3), if_neg (not_lt.mpr h4), if_pos rfl]
  · rw [hAn, sub_self, roundTo2Decimals_zero]

/-- C10: RecommendTerm's validation rejects only MinTermMonths strictly
greater than MaxTermMonths, so it accepts MinTermMonths = MaxTermMonths;
for such inputs the divisor of the term-length sub-score in calculateScore
is zero, so the source divides 0.0 by 0.0 (a float NaN): the score is not
a well-defined number and this total embedding is forced to adopt the
q / 0 = 0 convention at exactly that division. -/
theorem c10_term_score_division_by_zero (input : TermRecommendationInput)
    (h1 : 0 < input.Amount) (h2 : 0 ≤ input.InterestRate)
    (h3 : 0 < input.MinTermMonths) (h4 : input.MinTermMonths = input.MaxTermMonths)
    (h5 : input.MaxTermMonths ≤ MaxTermMonths) (h6 : 0 < input.MaxMonthlyPayment)
    (h7 : input.Preference = "minimize_interest" ∨ input.Preference = "minimize_payment" ∨
      input.Preference = "balanced") :
    recommendTermValidate input = none ∧ termScoreDenominator input = 0 := by
  constructor
  · unfold recommendTermValidate
    have hrange : input.MaxTermMonths - input.MinTermMonths = 0 := by omega
    rw [if_neg (not_le.mpr h1), if_neg (not_lt.mpr h2),
      if_neg (show ¬ (input.MinTermMonths ≤ 0 ∨ input.MaxTermMonths ≤ 0) by
        push_neg
        exact ⟨h3, by omega⟩),
      if_neg (not_lt.mpr (le_of_eq h4)),
      if_neg (not_lt.mpr h5),
      if_neg (by rw [hrange]; unfold MaxTermRangeMonths; omega),
      if_neg (not_le.mpr h6), if_pos h7]
  · unfold termScoreDenominator
    rw [h4, sub_self, Int.cast_zero]

/-- For a non-compare strategy, an accepted request returns the single
run's result with no error. -/
theorem calcPlan_ok_of_strategy {input : DebtExitInput} (hv : validateDebtExit input = none)
    (hs : ¬ input.Strategy = "compare") :
    CalculateDebtExitPlan input = .ok (calculateStrategy input input.Strategy) := by
  unfold CalculateDebtExitPlan
  rw [hv]
  dsimp only
  rw [if_neg hs]

/-- C3 (amended): for every input accepted by validation and each
strategy, the month loop terminates on its own (the embedding fuel marker
is never set), and the returned MonthsToPayoff is at most
MaxDebtPayoffMonths + 1 = 601: the ceiling break fires after the month
counter has already passed the ceiling, so a run that hits the ceiling
returns 601, one more than the configured maximum. -/
theorem c3_months_bounded (input : DebtExitInput) (strategy : String)
    (hv : validateDebtExit input = none) :
    (runFor input strategy).fuelOut = false ∧
    (calculateStrategy input strategy).MonthsToPayoff ≤ MaxDebtPayoffMonths + 1 := by
  have h := runMonths_bound (sortDebts input.Debts strategy) input.AvailableMonthlyPayment
    (MaxDebtPayoffMonths + 1) 0 (initBalances (sortDebts input.Debts strategy)) 0
    (by omega) (by omega)
  exact ⟨h.1, h.2⟩

/-- C4 (amended): under the compare meta-mode the primary result is the
avalanche run exactly when its TotalInterestPaid is strictly lower;
otherwise — including exact ties — it is the snowball run; the comparison
payload is attached. -/
theorem c4_compare_picks_lower_interest (input : DebtExitInput)
    (hv : validateDebtExit input = none) (hs : input.Strategy = "compare") :
    CalculateDebtExitPlan input = .ok
      { (if (calculateStrategy input "avalanche").TotalInterestPaid <
            (calculateStrategy input "snowball").TotalInterestPaid then
          calculateStrategy input "avalanche"
        else calculateStrategy input "snowball") with
        Comparison := some
          { Snowball := ⟨(calculateStrategy input "snowball").TotalInterestPaid,
              (calculateStrategy input "snowball").MonthsToPayoff⟩
            Avalanche := ⟨(calculateStrategy input "avalanche").TotalInterestPaid,
              (calculateStrategy input "avalanche").MonthsToPayoff⟩
            InterestSaved := roundTo2Decimals (max 0
              ((calculateStrategy input "snowball").TotalInterestPaid -
                (calculateStrategy input "avalanche").TotalInterestPaid))
            MonthsSaved := ((calculateStrategy input "snowball").MonthsToPayoff : ℤ) -
              ((calculateStrategy input "avalanche").MonthsToPayoff : ℤ) } } := by
  unfold CalculateDebtExitPlan
  rw [hv]
  dsimp only
  rw [if_pos hs]

/-- The MonthsToPayoff of an assembled result is the run's final month
counter. -/
theorem calculateStrategy_month (input : DebtExitInput) (strategy : String) :
    (calculateStrategy input strategy).MonthsToPayoff = (runFor input strategy).month := rfl

/-- On a one-debt list the payoff test reads the single balance. -/
theorem allPaid_single (d : Debt) (f : String → ℚ) :
    allPaid [d] f = decide (f d.Name ≤ DebtBalanceTolerance) := by
  simp [allPaid]

/-- One month of a single zero-rate debt with unit minimum payment and
unit budget, starting from a balance of at least 1: no interest accrues,
the minimum phase pays exactly 1, no surplus remains, and the balance
drops by exactly 1. -/
theorem zeroRateMonth (d : Debt) (bal : String → ℚ) (b : ℚ)
    (hrate : d.InterestRate = 0) (hmin : d.MinimumPayment = 1)
    (hb : bal d.Name = b) (hb1 : 1 ≤ b) (hble : b ≤ d.Amount) :
    (simMonth [d] 1 bal).payments =
      [⟨d.Name, roundTo2Decimals 1, roundTo2Decimals (b - 1)⟩] ∧
    (simMonth [d] 1 bal).bal d.Name = b - 1 ∧
    (simMonth [d] 1 bal).interest = 0 ∧
    (simMonth [d] 1 bal).totalPaid = 1 := by
  have hbpos : (0:ℚ) < b := lt_of_lt_of_le one_pos hb1
  have hmr : monthlyRate d = 0 := by
    unfold monthlyRate
    rw [hrate]
    norm_num
  have hv : ValidDebts [d] 1 := by
    refine ⟨?_, ?_, ?_, ?_, ?_, ?_⟩
    · intro d' hd'
      rw [List.mem_singleton] at hd'
      subst hd'
      linarith
    · intro d' hd'
      rw [List.mem_singleton] at hd'
      subst hd'
      rw [hrate]
    · intro d' hd'
      rw [List.mem_singleton] at hd'
      subst hd'
      rw [hmin]
      norm_num
    · intro d' hd'
      rw [List.mem_singleton] at hd'
      subst hd'
      rw [hmr, hmin, mul_zero]
      norm_num
    · simp only [List.map_cons, List.map_nil, List.sum_cons, List.sum_nil, add_zero]
      rw [hmin]
    · simp
  have hinv : BalInv [d] bal := by
    intro d' hd'
    rw [List.mem_singleton] at hd'
    subst hd'
    rw [hb]
    exact ⟨le_of_lt hbpos, hble⟩
  obtain ⟨m1, m2, m3, m4, m5⟩ := minPhaseResult_spec [d] 1 bal hv hinv
  have hmpPay : mpPay d b = 1 := by
    unfold mpPay
    rw [hmr, mul_zero, add_zero, hmin]
    exact min_eq_left hb1
  have hmpBal : mpBal d b = b - 1 := by
    unfold mpBal
    rw [hmpPay, hmr, mul_zero, sub_zero]
  have hsome : mpEntry d (bal d.Name) =
      some ⟨d.Name, roundTo2Decimals 1, roundTo2Decimals (b - 1)⟩ := by
    unfold mpEntry
    rw [hb, if_pos hbpos, hmpPay, hmpBal]
  have hpayif : mpPayIf d (bal d.Name) = 1 := by
    unfold mpPayIf
    rw [hb, if_pos hbpos, hmpPay]
  have hsum : (([d].map (fun x => mpPayIf x (bal x.Name))).sum : ℚ) = 1 := by
    rw [List.map_cons, List.map_nil, List.sum_cons, List.sum_nil, add_zero]
    exact hpayif
  have hpays : (minPhaseResult [d] 1 bal).payments =
      [⟨d.Name, roundTo2Decimals 1, roundTo2Decimals (b - 1)⟩] := by
    rw [m5, @List.filterMap_cons_some Debt MonthlyPayment
      (fun x => mpEntry x (bal x.Name)) d [] _ hsome, List.filterMap_nil]
  have havail : (minPhaseResult [d] 1 bal).available = 0 := by
    rw [m3, hsum]
    exact sub_self 1
  have hnoop : applySurplus [d] (minPhaseResult [d] 1 bal) = minPhaseResult [d] 1 bal :=
    applySurplus_noop_budget [d] _ (by rw [havail]; exact lt_irrefl 0)
  refine ⟨?_, ?_, ?_, ?_⟩
  · show (applySurplus [d] (minPhaseResult [d] 1 bal)).payments = _
    rw [hnoop]
    exact hpays
  · show (applySurplus [d] (minPhaseResult [d] 1 bal)).bal d.Name = b - 1
    rw [hnoop, m1 d (List.mem_singleton_self d), hb]
    unfold mpBalIf
    rw [if_pos hbpos]
    exact hmpBal
  · show monthInterest [d] bal = 0
    unfold monthInterest
    rw [List.map_cons, List.map_nil, List.sum_cons, List.sum_nil, add_zero]
    show (if 0 < bal d.Name then bal d.Name * monthlyRate d else 0) = 0
    rw [hmr, mul_zero, ite_self]
  · show (applySurplus [d] (minPhaseResult [d] 1 bal)).totalPaid = 1
    rw [hnoop, m4]
    exact hsum

/-- The 0.002 gap between the residue and payoff balances vanishes under
2-decimal rounding in every month of the run. -/
theorem twinRound (m : ℕ) (hm : m ≤ 600) :
    roundTo2Decimals (residueDebt.Amount - (m : ℚ) - 1) =
      roundTo2Decimals (payoffDebt.Amount - (m : ℚ) - 1) := by
  have hmQ : (m : ℚ) ≤ 600 := by exact_mod_cast hm
  have hAamt : residueDebt.Amount = 601012/1000 := rfl
  have hBamt : payoffDebt.Amount = 60101/100 := rfl
  rw [hAamt, hBamt]
  unfold roundTo2Decimals goRound
  have hxA : ((601012/1000 : ℚ) - (m : ℚ) - 1) * 100 =
      ((60001 - 100 * (m : ℤ) : ℤ) : ℚ) + 2/10 := by
    push_cast
    ring
  have hxB : ((60101/100 : ℚ) - (m : ℚ) - 1) * 100 =
      ((60001 - 100 * (m : ℤ) : ℤ) : ℚ) := by
    push_cast
    ring
  rw [hxA, hxB, if_neg (by push_cast; linarith), if_neg (by push_cast; linarith)]
  have h7 : ((60001 - 100 * (m : ℤ) : ℤ) : ℚ) + 2/10 + 1/2 =
      ((60001 - 100 * (m : ℤ) : ℤ) : ℚ) + 7/10 := by ring
  rw [h7, Int.floor_int_add, Int.floor_int_add]
  have h710 : ⌊(7:ℚ)/10⌋ = 0 := by
    rw [Int.floor_eq_zero_iff, Set.mem_Ico]
    constructor <;> norm_num
  have h12 : ⌊(1:ℚ)/2⌋ = 0 := by
    rw [Int.floor_eq_zero_iff, Set.mem_Ico]
    constructor <;> norm_num
  rw [h710, h12]

/-- Twin-run lemma: started at the same month counter with their
respective on-schedule balances, the residue and payoff runs record
identical plans and identical interest, both stop at month 601, and only
the residue run exits through the ceiling break. -/
theorem twinRun : ∀ (fuel month : ℕ) (balA balB : String → ℚ) (ti : ℚ),
    month + fuel = MaxDebtPayoffMonths + 1 → 1 ≤ fuel →
    balA "d" = residueDebt.Amount - (month : ℚ) →
    balB "d" = payoffDebt.Amount - (month : ℚ) →
    (runMonths [residueDebt] 1 fuel month balA ti).plan =
      (runMonths [payoffDebt] 1 fuel month balB ti).plan ∧
    (runMonths [residueDebt] 1 fuel month balA ti).interest =
      (runMonths [payoffDebt] 1 fuel month balB ti).interest ∧
    (runMonths [residueDebt] 1 fuel month balA ti).month = MaxDebtPayoffMonths + 1 ∧
    (runMonths [payoffDebt] 1 fuel month balB ti).month = MaxDebtPayoffMonths + 1 ∧
    (runMonths [residueDebt] 1 fuel month balA ti).ceiling = true ∧
    (runMonths [payoffDebt] 1 fuel month balB ti).ceiling = false := by
  intro fuel
  induction fuel with
  | zero =>
    intro month balA balB ti hfm h1
    exact absurd h1 (by omega)
  | succ fuel ih =>
    intro month balA balB ti hfm _ hbalA hbalB
    have hMD : MaxDebtPayoffMonths = 600 := rfl
    have hmf : month + fuel = 600 := by omega
    have hm600 : month ≤ 600 := by omega
    have hmQ : (month : ℚ) ≤ 600 := by exact_mod_cast hm600
    have hAamt : residueDebt.Amount = 601012/1000 := rfl
    have hBamt : payoffDebt.Amount = 60101/100 := rfl
    have hAname : residueDebt.Name = "d" := rfl
    have hBname : payoffDebt.Name = "d" := rfl
    obtain ⟨zA1, zA2, zA3, zA4⟩ := zeroRateMonth residueDebt balA
      (residueDebt.Amount - (month : ℚ)) rfl rfl
      (by rw [hAname]; exact hbalA)
      (by rw [hAamt]; linarith)
      (by
        have h0 : (0:ℚ) ≤ (month : ℚ) := Nat.cast_nonneg month
        linarith)
    obtain ⟨zB1, zB2, zB3, zB4⟩ := zeroRateMonth payoffDebt balB
      (payoffDebt.Amount - (month : ℚ)) rfl rfl
      (by rw [hBname]; exact hbalB)
      (by rw [hBamt]; linarith)
      (by
        have h0 : (0:ℚ) ≤ (month : ℚ) := Nat.cast_nonneg month
        linarith)
    have hA2 : (simMonth [residueDebt] 1 balA).bal residueDebt.Name =
        residueDebt.Amount - ((month : ℚ) + 1) := by
      rw [zA2]
      ring
    have hB2 : (simMonth [payoffDebt] 1 balB).bal payoffDebt.Name =
        payoffDebt.Amount - ((month : ℚ) + 1) := by
      rw [zB2]
      ring
    have hapA : allPaid [residueDebt] (simMonth [residueDebt] 1 balA).bal = false := by
      rw [allPaid_single, zA2]
      apply decide_eq_false
      rw [hAamt]
      unfold DebtBalanceTolerance
      intro hcon
      linarith
    rcases Nat.eq_zero_or_pos fuel with hf0 | hfpos
    · subst hf0
      have hm : month = 600 := by omega
      subst hm
      have hapB : allPaid [payoffDebt] (simMonth [payoffDebt] 1 balB).bal = true := by
        rw [allPaid_single, zB2]
        apply decide_eq_true
        rw [hBamt]
        unfold DebtBalanceTolerance
        push_cast
        norm_num
      have hceil : MaxDebtPayoffMonths < 600 + 1 := by omega
      have htt : (true : Bool) = true := rfl
      rw [runMonths_succ, runMonths_succ, hapA, hapB, if_neg Bool.false_ne_true,
        if_pos htt, if_pos hceil]
      refine ⟨?_, ?_, ?_, ?_, rfl, rfl⟩
      · rw [zA1, zB1, zA4, zB4, hAname, hBname, twinRound 600 le_rfl]
      · rw [zA3, zB3]
      · rw [hMD]
      · rw [hMD]
    · have hm1le : month + 1 ≤ 600 := by omega
      have hmQ1 : (month : ℚ) + 1 ≤ 600 := by exact_mod_cast hm1le
      have hapB : allPaid [payoffDebt] (simMonth [payoffDebt] 1 balB).bal = false := by
        rw [allPaid_single, zB2]
        apply decide_eq_false
        rw [hBamt]
        unfold DebtBalanceTolerance
        intro hcon
        linarith
      have hnc : ¬ MaxDebtPayoffMonths < month + 1 := by omega
      rw [runMonths_succ, runMonths_succ, hapA, hapB, if_neg Bool.false_ne_true,
        if_neg Bool.false_ne_true, if_neg hnc, if_neg hnc, zA3, zB3]
      obtain ⟨i1, i2, i3, i4, i5, i6⟩ := ih (month + 1) (simMonth [residueDebt] 1 balA).bal
        (simMonth [payoffDebt] 1 balB).bal (ti + 0) (by omega) hfpos
        (by push_cast; exact hA2) (by push_cast; exact hB2)
      refine ⟨?_, i2, i3, i4, i5, i6⟩
      rw [zA1, zB1, zA4, zB4, hAname, hBname, twinRound month hm600, i1]

section ConcreteEvaluations

attribute [local semireducible] Rat.mul Rat.inv Rat.add Rat.sub Rat.ofScientific

set_option maxRecDepth 400000

set_option maxHeartbeats 2000000

/-- The residue and payoff runs side by side: both are accepted, both
return month 601, they assemble equal results, and only the residue run
exits through the ceiling break. -/
theorem residue_payoff_facts :
    hitCeiling residueInput "snowball" = true ∧
    hitCeiling payoffInput "snowball" = false ∧
    (calculateStrategy residueInput "snowball").MonthsToPayoff = MaxDebtPayoffMonths + 1 ∧
    calculateStrategy residueInput "snowball" = calculateStrategy payoffInput "snowball" := by
  have hA0 : initBalances [residueDebt] "d" = residueDebt.Amount - ((0:ℕ) : ℚ) := by decide
  have hB0 : initBalances [payoffDebt] "d" = payoffDebt.Amount - ((0:ℕ) : ℚ) := by decide
  obtain ⟨t1, t2, t3, t4, t5, t6⟩ := twinRun (MaxDebtPayoffMonths + 1) 0
    (initBalances [residueDebt]) (initBalances [payoffDebt]) 0 (by omega) (by omega) hA0 hB0
  have t1' : (runFor residueInput "snowball").plan = (runFor payoffInput "snowball").plan := t1
  have t2' : (runFor residueInput "snowball").interest =
      (runFor payoffInput "snowball").interest := t2
  have t3' : (runFor residueInput "snowball").month = MaxDebtPayoffMonths + 1 := t3
  have t4' : (runFor payoffInput "snowball").month = MaxDebtPayoffMonths + 1 := t4
  refine ⟨t5, t6, ?_, ?_⟩
  · rw [calculateStrategy_month]
    exact t3'
  have e1 : roundTo2Decimals ((residueInput.Debts.map (·.Amount)).sum) =
      roundTo2Decimals ((payoffInput.Debts.map (·.Amount)).sum) := by decide
  have e2 : roundTo2Decimals (runFor residueInput "snowball").interest =
      roundTo2Decimals (runFor payoffInput "snowball").interest :=
    congrArg roundTo2Decimals t2'
  have e3 : (runFor residueInput "snowball").month = (runFor payoffInput "snowball").month :=
    t3'.trans t4'.symm
  show ({ Strategy := "snowball",
          TotalDebt := roundTo2Decimals ((residueInput.Debts.map (·.Amount)).sum),
          TotalInterestPaid := roundTo2Decimals (runFor residueInput "snowball").interest,
          MonthsToPayoff := (runFor residueInput "snowball").month,
          MonthlyPlan := (runFor residueInput "snowball").plan,
          Comparison := none } : DebtExitResult) =
    ({ Strategy := "snowball",
       TotalDebt := roundTo2Decimals ((payoffInput.Debts.map (·.Amount)).sum),
       TotalInterestPaid := roundTo2Decimals (runFor payoffInput "snowball").interest,
       MonthsToPayoff := (runFor payoffInput "snowball").month,
       MonthlyPlan := (runFor payoffInput "snowball").plan,
       Comparison := none } : DebtExitResult)
  rw [e1, e2, e3, t1']

/-- C3 counterexample: residueInput is accepted by validation, the run
hits the ceiling, and the returned MonthsToPayoff is 601, strictly more
than the configured maximum of 600 — refuting the claim that
MonthsToPayoff never exceeds the ceiling. -/
theorem c3_counterexample_ceiling_601 :
    validateDebtExit residueInput = none ∧
    CalculateDebtExitPlan residueInput = .ok (calculateStrategy residueInput "snowball") ∧
    MaxDebtPayoffMonths < (calculateStrategy residueInput "snowball").MonthsToPayoff ∧
    hitCeiling residueInput "snowball" = true := by
  refine ⟨by decide, calcPlan_ok_of_strategy (by decide) (by decide), ?_,
    residue_payoff_facts.1⟩
  rw [residue_payoff_facts.2.2.1]
  omega

/-- C3 witness: the amended bound applied to a concrete accepted input. -/
theorem c3_months_bounded_witness :
    validateDebtExit oneMonthInput = none ∧
    ((runFor oneMonthInput "snowball").fuelOut = false ∧
      (calculateStrategy oneMonthInput "snowball").MonthsToPayoff ≤ MaxDebtPayoffMonths + 1) :=
  ⟨by decide, c3_months_bounded oneMonthInput "snowball" (by decide)⟩

/-- C4 counterexample: tieInput produces an exact tie in TotalInterestPaid
between the two runs, and the primary result of compare is the snowball
run — refuting the claim that ties select the avalanche run. -/
theorem c4_counterexample_tie_snowball :
    validateDebtExit tieInput = none ∧
    (calculateStrategy tieInput "avalanche").TotalInterestPaid =
      (calculateStrategy tieInput "snowball").TotalInterestPaid ∧
    (CalculateDebtExitPlan tieInput).toOption.map (·.Strategy) = some "snowball" :=
  ⟨by decide, by decide, by decide⟩

/-- C4 witness: the amended selection rule applied to tieInput. -/
theorem c4_compare_picks_witness :
    validateDebtExit tieInput = none ∧ tieInput.Strategy = "compare" ∧
    CalculateDebtExitPlan tieInput = .ok
      { (if (calculateStrategy tieInput "avalanche").TotalInterestPaid <
            (calculateStrategy tieInput "snowball").TotalInterestPaid then
          calculateStrategy tieInput "avalanche"
        else calculateStrategy tieInput "snowball") with
        Comparison := some
          { Snowball := ⟨(calculateStrategy tieInput "snowball").TotalInterestPaid,
              (calculateStrategy tieInput "snowball").MonthsToPayoff⟩
            Avalanche := ⟨(calculateStrategy tieInput "avalanche").TotalInterestPaid,
              (calculateStrategy tieInput "avalanche").MonthsToPayoff⟩
            InterestSaved := roundTo2Decimals (max 0
              ((calculateStrategy tieInput "snowball").TotalInterestPaid -
                (calculateStrategy tieInput "avalanche").TotalInterestPaid))
            MonthsSaved := ((calculateStrategy tieInput "snowball").MonthsToPayoff : ℤ) -
              ((calculateStrategy tieInput "avalanche").MonthsToPayoff : ℤ) } } :=
  ⟨by decide, rfl, c4_compare_picks_lower_interest tieInput (by decide) rfl⟩

/-- C6 (amended): when the simulation hits the month ceiling,
CalculateDebtExitPlan still returns the partial monthly plan built so far
and no error; the ceiling condition itself is only logged — the result
carries no marker (see the counterexample). -/
theorem c6_no_error_on_ceiling (input : DebtExitInput)
    (hv : validateDebtExit input = none) (hs : ¬ input.Strategy = "compare")
    (hc : hitCeiling input input.Strategy = true) :
    CalculateDebtExitPlan input = .ok (calculateStrategy input input.Strategy) ∧
    (calculateStrategy input input.Strategy).MonthlyPlan = (runFor input input.Strategy).plan :=
  ⟨calcPlan_ok_of_strategy hv hs, rfl⟩

/-- C6 witness: the ceiling-hitting residueInput is returned in full with
no error. -/
theorem c6_no_error_on_ceiling_witness :
    validateDebtExit residueInput = none ∧
    hitCeiling residueInput residueInput.Strategy = true ∧
    (CalculateDebtExitPlan residueInput =
        .ok (calculateStrategy residueInput residueInput.Strategy) ∧
      (calculateStrategy residueInput residueInput.Strategy).MonthlyPlan =
        (runFor residueInput residueInput.Strategy).plan) :=
  ⟨by decide, residue_payoff_facts.1,
    c6_no_error_on_ceiling residueInput (by decide) (by decide) residue_payoff_facts.1⟩

/-- C6 counterexample: no boolean function of the returned result can
indicate that the ceiling was reached: the accepted inputs residueInput
(which hits the ceiling with a residual balance above tolerance) and
payoffInput (a normal payoff in exactly 601 months) produce identical
DebtExitResult values, so any would-be marker evaluates identically on
both — refuting the claim that the result carries an explicit
marker/flag. -/
theorem c6_counterexample_no_marker :
    ¬ ∃ m : DebtExitResult → Bool, ∀ (i : DebtExitInput) (r : DebtExitResult),
      validateDebtExit i = none → CalculateDebtExitPlan i = .ok r →
      m r = hitCeiling i i.Strategy := by
  rintro ⟨m, hm⟩
  have hA := hm residueInput (calculateStrategy residueInput residueInput.Strategy)
    (by decide) (calcPlan_ok_of_strategy (by decide) (by decide))
  have hB := hm payoffInput (calculateStrategy payoffInput payoffInput.Strategy)
    (by decide) (calcPlan_ok_of_strategy (by decide) (by decide))
  have hAB : calculateStrategy residueInput residueInput.Strategy =
      calculateStrategy payoffInput payoffInput.Strategy := residue_payoff_facts.2.2.2
  have hcA : hitCeiling residueInput residueInput.Strategy = true := residue_payoff_facts.1
  have hcB : hitCeiling payoffInput payoffInput.Strategy = false := residue_payoff_facts.2.1
  rw [hcA, hAB] at hA
  rw [hcB, hA] at hB
  cases hB

/-- C1 witness: the conservation bound applied to a concrete accepted
one-month payoff. -/
theorem c1_payment_sum_conservation_witness :
    validateDebtExit oneMonthInput = none ∧
    hitCeiling oneMonthInput "snowball" = false ∧
    |recPaymentsSum (calculateStrategy oneMonthInput "snowball") -
      ((calculateStrategy oneMonthInput "snowball").TotalInterestPaid +
        (calculateStrategy oneMonthInput "snowball").TotalDebt)| ≤
      ((numPayments (calculateStrategy oneMonthInput "snowball") : ℚ) +
        (oneMonthInput.Debts.length : ℚ) + 1) / 100 :=
  ⟨by decide, by decide, c1_payment_sum_conservation oneMonthInput "snowball" (by decide)
    (Or.inl rfl) (by decide)⟩

/-- C2 witness: the surplus characterization applied to a concrete month
state of surplusInput. -/
theorem c2_surplus_single_target_witness :
    validateDebtExit surplusInput = none ∧
    ∃ j pre e post,
      (sortDebts surplusInput.Debts "snowball").find?
        (fun d => decide (0 < (minPhaseResult (sortDebts surplusInput.Debts "snowball")
          surplusInput.AvailableMonthlyPayment
          (initBalances (sortDebts surplusInput.Debts "snowball"))).bal d.Name)) = some j ∧
      (minPhaseResult (sortDebts surplusInput.Debts "snowball")
        surplusInput.AvailableMonthlyPayment
        (initBalances (sortDebts surplusInput.Debts "snowball"))).payments =
        pre ++ e :: post ∧
      e.DebtName = j.Name ∧ (∀ q ∈ pre, q.DebtName ≠ j.Name) ∧
      applySurplus (sortDebts surplusInput.Debts "snowball")
        (minPhaseResult (sortDebts surplusInput.Debts "snowball")
          surplusInput.AvailableMonthlyPayment
          (initBalances (sortDebts surplusInput.Debts "snowball"))) =
        { bal := updateFn (minPhaseResult (sortDebts surplusInput.Debts "snowball")
            surplusInput.AvailableMonthlyPayment
            (initBalances (sortDebts surplusInput.Debts "snowball"))).bal j.Name
            ((minPhaseResult (sortDebts surplusInput.Debts "snowball")
              surplusInput.AvailableMonthlyPayment
              (initBalances (sortDebts surplusInput.Debts "snowball"))).bal j.Name -
              min (minPhaseResult (sortDebts surplusInput.Debts "snowball")
                surplusInput.AvailableMonthlyPayment
                (initBalances (sortDebts surplusInput.Debts "snowball"))).available
                ((minPhaseResult (sortDebts surplusInput.Debts "snowball")
                  surplusInput.AvailableMonthlyPayment
                  (initBalances (sortDebts surplusInput.Debts "snowball"))).bal j.Name))
          available := (minPhaseResult (sortDebts surplusInput.Debts "snowball")
            surplusInput.AvailableMonthlyPayment
            (initBalances (sortDebts surplusInput.Debts "snowball"))).available -
            min (minPhaseResult (sortDebts surplusInput.Debts "snowball")
              surplusInput.AvailableMonthlyPayment
              (initBalances (sortDebts surplusInput.Debts "snowball"))).available
              ((minPhaseResult (sortDebts surplusInput.Debts "snowball")
                surplusInput.AvailableMonthlyPayment
                (initBalances (sortDebts surplusInput.Debts "snowball"))).bal j.Name)
          totalPaid := (minPhaseResult (sortDebts surplusInput.Debts "snowball")
            surplusInput.AvailableMonthlyPayment
            (initBalances (sortDebts surplusInput.Debts "snowball"))).totalPaid +
            min (minPhaseResult (sortDebts surplusInput.Debts "snowball")
              surplusInput.AvailableMonthlyPayment
              (initBalances (sortDebts surplusInput.Debts "snowball"))).available
              ((minPhaseResult (sortDebts surplusInput.Debts "snowball")
                surplusInput.AvailableMonthlyPayment
                (initBalances (sortDebts surplusInput.Debts "snowball"))).bal j.Name)
          payments := pre ++
            { e with
              Payment := roundTo2Decimals (e.Payment +
                min (minPhaseResult (sortDebts surplusInput.Debts "snowball")
                  surplusInput.AvailableMonthlyPayment
                  (initBalances (sortDebts surplusInput.Debts "snowball"))).available
                  ((minPhaseResult (sortDebts surplusInput.Debts "snowball")
                    surplusInput.AvailableMonthlyPayment
                    (initBalances (sortDebts surplusInput.Debts "snowball"))).bal j.Name))
              RemainingBalance := roundTo2Decimals
                ((minPhaseResult (sortDebts surplusInput.Debts "snowball")
                  surplusInput.AvailableMonthlyPayment
                  (initBalances (sortDebts surplusInput.Debts "snowball"))).bal j.Name -
                  min (minPhaseResult (sortDebts surplusInput.Debts "snowball")
                    surplusInput.AvailableMonthlyPayment
                    (initBalances (sortDebts surplusInput.Debts "snowball"))).available
                    ((minPhaseResult (sortDebts surplusInput.Debts "snowball")
                      surplusInput.AvailableMonthlyPayment
                      (initBalances (sortDebts surplusInput.Debts "snowball"))).bal
                      j.Name)) } :: post } :=
  ⟨by decide,
    (c2_surplus_single_target surplusInput "snowball" (by decide)).2.2
      (initBalances (sortDebts surplusInput.Debts "snowball"))
      (minPhaseResult (sortDebts surplusInput.Debts "snowball")
        surplusInput.AvailableMonthlyPayment
        (initBalances (sortDebts surplusInput.Debts "snowball")))
      (by unfold BalInv; decide) rfl (by decide) (by decide)⟩

/-- C5 witness: the infeasibility characterization applied to a concrete
structurally valid input. -/
theorem c5_infeasible_budget_witness :
    structuralOK oneMonthInput ∧
    (((∃ e, validateDebtExit oneMonthInput = some e ∧ e.isInfeasible = true) ↔
      ((∃ d ∈ oneMonthInput.Debts,
          d.MinimumPayment < d.Amount * (d.InterestRate / 100) / 12) ∨
        oneMonthInput.AvailableMonthlyPayment <
          (oneMonthInput.Debts.map (·.MinimumPayment)).sum)) ∧
    (∀ e, validateDebtExit oneMonthInput = some e →
      CalculateDebtExitPlan oneMonthInput = .error e)) :=
  ⟨by unfold structuralOK; decide, c5_infeasible_budget oneMonthInput (by unfold structuralOK; decide)⟩

/-- C7 witness: monotonicity applied to a concrete accepted input with the
budget raised from 100 to 200. -/
theorem c7_budget_monotone_witness :
    validateDebtExit oneMonthInput = none ∧
    oneMonthInput.AvailableMonthlyPayment ≤ 200 ∧
    ((calculateStrategy { oneMonthInput with AvailableMonthlyPayment := 200 }
        "snowball").MonthsToPayoff ≤
      (calculateStrategy oneMonthInput "snowball").MonthsToPayoff ∧
    (calculateStrategy { oneMonthInput with AvailableMonthlyPayment := 200 }
        "snowball").TotalInterestPaid ≤
      (calculateStrategy oneMonthInput "snowball").TotalInterestPaid) :=
  ⟨by decide, by decide, c7_budget_monotone oneMonthInput 200 "snowball" (by decide) (by decide)⟩

/-- C9 witness: the zero-rate amortization result at principal 100 over 3
months. -/
theorem c9_zero_rate_loan_witness :
    (0:ℚ) < 100 ∧ (100:ℚ) ≤ MaxLoanAmount ∧ (0:ℤ) < 3 ∧ (3:ℤ) ≤ MaxTermMonths ∧
    (CalculateLoan ⟨100, 0, 3⟩ = .ok ⟨roundTo2Decimals ((100:ℚ) / ((3:ℤ) : ℚ)),
      roundTo2Decimals (((100:ℚ) / ((3:ℤ) : ℚ)) * ((3:ℤ) : ℚ)),
      roundTo2Decimals (((100:ℚ) / ((3:ℤ) : ℚ)) * ((3:ℤ) : ℚ) - 100)⟩ ∧
    roundTo2Decimals (((100:ℚ) / ((3:ℤ) : ℚ)) * ((3:ℤ) : ℚ) - 100) = 0) :=
  ⟨by decide, by decide, by decide, by decide,
    c9_zero_rate_loan 100 3 (by decide) (by decide) (by decide) (by decide)⟩

/-- C10 witness: a concrete accepted input with MinTermMonths =
MaxTermMonths = 12 whose term-score divisor is zero. -/
theorem c10_term_score_division_by_zero_witness :
    (0:ℚ) < 1000 ∧ (0:ℚ) ≤ 10 ∧ (0:ℤ) < 12 ∧ (12:ℤ) = 12 ∧ (12:ℤ) ≤ MaxTermMonths ∧
    (0:ℚ) < 500 ∧
    (recommendTermValidate ⟨1000, 10, 12, 12, 500, "balanced"⟩ = none ∧
      termScoreDenominator ⟨1000, 10, 12, 12, 500, "balanced"⟩ = 0) :=
  ⟨by decide, by decide, by decide, rfl, by decide, by decide,
    c10_term_score_division_by_zero ⟨1000, 10, 12, 12, 500, "balanced"⟩ (by decide) (by decide)
      (by decide) rfl (by decide) (by decide) (Or.inr (Or.inr rfl))⟩

end ConcreteEvaluations

end LoanAgent
